import Mathlib

/-!
Verification development for the voter-list OCR repair pipeline
(`src/ocr/parser.py`, `src/ocr/repair.py`, `src/ocr/final_repair.py`,
`src/ocr/extractor.py`).

The Python sources are shallowly embedded: strings become `List Char` /
`String`, pandas rows become a `Row` structure whose cells are strings
(a pandas-`NaN` / whitespace-only cell — the script normalises the two
with `df.replace(r'^\s*$', np.nan, regex=True)` — is modelled as a
whitespace-only string, tested by `blankL`/`blankS`), the tabular maps
become functions `Key → Option _`, and the Google-Cloud-Vision HTTP call
becomes an oracle `String → GcvOutcome`.  Each `re` pattern used by the
scripts is translated into an explicit backtracking scanner with the
same leftmost-match / greedy / lazy semantics.
-/

namespace Ocr

/-! ## Character classes -/

/-- Python regex `\s` / `str.strip()` whitespace, restricted to the ASCII
whitespace characters that occur in the pipeline's data. -/
def isPySpace (c : Char) : Bool :=
  c = ' ' || c = '\t' || c = '\n' || c = '\r' || c = '\x0b' || c = '\x0c'

/-- ASCII digit (regex class `0-9`): one of the ten characters `'0'`-`'9'`. -/
def isAsciiDigit (c : Char) : Bool :=
  c = '0' || c = '1' || c = '2' || c = '3' || c = '4' ||
  c = '5' || c = '6' || c = '7' || c = '8' || c = '9'

/-- Bengali digit (regex class `০-৯`): one of the ten characters `'০'`-`'৯'`
(the consecutive code points U+09E6 … U+09EF). -/
def isBengaliDigit (c : Char) : Bool :=
  c = '০' || c = '১' || c = '২' || c = '৩' || c = '৪' ||
  c = '৫' || c = '৬' || c = '৭' || c = '৮' || c = '৯'

/-- Regex class `[0-9০-৯]`, the digit class used throughout the scripts. -/
def isDigitEither (c : Char) : Bool := isAsciiDigit c || isBengaliDigit c

/-- ASCII letter, for the regex class `a-zA-Z`. -/
def isAsciiLetter (c : Char) : Bool :=
  ('a' ≤ c && c ≤ 'z') || ('A' ≤ c && c ≤ 'Z')

/-! ## Digit normalisation (`to_bengali_digits`)

`parser.py` lines 10-14 / `repair.py` lines 22-25:
`text.translate(str.maketrans("0123456789", "০১২৩৪৫৬৭৮৯"))`. -/

/-- The character translation table built by `str.maketrans`: each ASCII
digit goes to the Bengali digit of the same value, all other characters
are left unchanged. -/
def digitMap (c : Char) : Char :=
  if c = '0' then '০' else if c = '1' then '১' else if c = '2' then '২'
  else if c = '3' then '৩' else if c = '4' then '৪' else if c = '5' then '৫'
  else if c = '6' then '৬' else if c = '7' then '৭' else if c = '8' then '৮'
  else if c = '9' then '৯' else c

/-- `to_bengali_digits` on character lists: `str.translate` maps the
translation table over every character. -/
def toBengaliL (cs : List Char) : List Char := cs.map digitMap

/-- `to_bengali_digits(text)` from `parser.py` / `repair.py` /
`final_repair.py` (the three copies are identical on strings; the
non-string branch returning `""` is outside the string model). -/
def to_bengali_digits (s : String) : String := String.mk (toBengaliL s.data)

/-! ## String scanning primitives

Each Python `re` pattern in the scripts is a simple scanner; the
combinators below give them the same semantics: `re.search` tries the
pattern at every position from the left and keeps the first success,
greedy pieces take as much as possible and retreat only when the rest of
the pattern cannot match, lazy pieces take as little as possible, and
`.` never matches a newline. -/

/-- `leadsWith pat cs`: `cs` starts with the literal `pat`. -/
def leadsWith : List Char → List Char → Bool
  | [], _ => true
  | _ :: _, [] => false
  | p :: ps, c :: cs => p == c && leadsWith ps cs

/-- A cell or string that pandas' `df.replace(r'^\s*$', np.nan, regex=True)`
turns into `NaN`: empty or whitespace-only.  `blankL` is the model of
`pd.isna` on a cell of the loaded sheet. -/
def blankL (cs : List Char) : Bool := cs.all isPySpace

/-- `blankL` on strings. -/
def blankS (s : String) : Bool := blankL s.data

/-- Python `str.strip()`. -/
def stripL (cs : List Char) : List Char :=
  ((cs.dropWhile isPySpace).reverse.dropWhile isPySpace).reverse

/-- `str.strip()` on strings. -/
def stripS (s : String) : String := String.mk (stripL s.data)

/-- Length of the run of characters satisfying `p` at the head. -/
def runLen (p : Char → Bool) : List Char → Nat
  | [] => 0
  | c :: cs => if p c then runLen p cs + 1 else 0

/-- `re.search(r'[0-9০-৯]{lo,hi}', text)`: the match starts at the first
position where at least `lo` consecutive digits (either script) begin, and
the greedy counted repetition takes up to `hi` of them. -/
def runScan (lo hi : Nat) : List Char → Option (List Char)
  | [] => none
  | c :: rest =>
    if lo ≤ runLen isDigitEither (c :: rest) then
      some ((c :: rest).take (min hi (runLen isDigitEither (c :: rest))))
    else runScan lo hi rest

/-- `re.search(r'^.*?([0-9০-৯]{3,4})', text)`: the lazy `.*?` (which cannot
cross a newline) advances until a position where at least 3 consecutive
digits start; the greedy group then takes up to 4 of them. -/
def serialScan : List Char → Option (List Char)
  | [] => none
  | c :: rest =>
    if 3 ≤ runLen isDigitEither (c :: rest) then
      some ((c :: rest).take (min 4 (runLen isDigitEither (c :: rest))))
    else if c = '\n' then none
    else serialScan rest

/-- Head character is `.` or whitespace — the class `[.\s]`. -/
def dotOrSpaceLead : List Char → Bool
  | [] => false
  | c :: _ => c = '.' || isPySpace c

/-- The group of `r'^.*?([0-9০-৯]{3,4})[.\s]'` at a fixed position: the
greedy `{3,4}` first tries 4 digits, then backtracks to 3, each time
requiring a `.` or whitespace right after. -/
def serialStrictAt (cs : List Char) : Option (List Char) :=
  let n := runLen isDigitEither cs
  if 4 ≤ n && dotOrSpaceLead (cs.drop 4) then some (cs.take 4)
  else if 3 ≤ n && dotOrSpaceLead (cs.drop 3) then some (cs.take 3)
  else none

/-- `re.search(r'^.*?([0-9০-৯]{3,4})[.\s]', text)` (`parser.py` line 36). -/
def serialScanStrict : List Char → Option (List Char)
  | [] => none
  | c :: rest =>
    match serialStrictAt (c :: rest) with
    | some g => some g
    | none => if c = '\n' then none else serialScanStrict rest

/-- Lookahead `\s*L` for one of the stop literals `L`. -/
def spacesStarThenStop (stops : List (List Char)) : List Char → Bool
  | [] => stops.any (·.isEmpty)
  | c :: rest =>
    stops.any (fun st => leadsWith st (c :: rest)) ||
      (isPySpace c && spacesStarThenStop stops rest)

/-- Lookahead `\s+L`: at least one whitespace character, then `\s*L`. -/
def spacesPlusThenStop (stops : List (List Char)) : List Char → Bool
  | [] => false
  | c :: rest => isPySpace c && spacesStarThenStop stops rest

/-- The lazy group `(.*?)(?=STOP|$)`: the shortest prefix (which cannot
contain a newline, since `.` does not match `\n`) whose remainder satisfies
the stop lookahead; with `allowEnd` the `$` alternative lets the capture
run to the end of the string. Returns `none` when no prefix works. -/
def lazyCapture (stop : List Char → Bool) (allowEnd : Bool) : List Char → Option (List Char)
  | [] => if allowEnd then some [] else none
  | c :: rest =>
    if stop (c :: rest) then some []
    else if c = '\n' then none
    else (lazyCapture stop allowEnd rest).map (fun cap => c :: cap)

/-- Length of the whitespace run at the head. -/
def spaceRun (cs : List Char) : Nat := runLen isPySpace cs

/-- The longest skip `\s*[:;]?\s*` can take: maximal whitespace, then an
optional single `:` or `;`, then maximal whitespace again. -/
def skipMax (cs : List Char) : Nat :=
  let w := spaceRun cs
  match cs.drop w with
  | c :: rest => if c = ':' || c = ';' then w + 1 + spaceRun rest else w
  | [] => w

/-- Backtracking over the skip `\s*[:;]?\s*` before a lazy capture: the
engine first takes the maximal skip and, when the rest of the pattern
fails, retreats one character at a time (every shorter skip is also a
valid match of `\s*[:;]?\s*`, its region being whitespace with at most one
`:`/`;`). -/
def lazyCaptureSkipFrom (stop : List Char → Bool) (allowEnd : Bool)
    (cs : List Char) : Nat → Option (List Char)
  | 0 => lazyCapture stop allowEnd cs
  | k + 1 =>
    match lazyCapture stop allowEnd (cs.drop (k + 1)) with
    | some cap => some cap
    | none => lazyCaptureSkipFrom stop allowEnd cs k

/-- `\s*[:;]?\s*(.*?)(?=STOP|$)` at a fixed position. -/
def lazyCaptureSkip (stop : List Char → Bool) (allowEnd : Bool)
    (cs : List Char) : Option (List Char) :=
  lazyCaptureSkipFrom stop allowEnd cs (skipMax cs)

/-- Backtracking for `\s*[:;]?\s*(CLASS+)`: the greedy one-or-more class
group needs at least one class character right after the skip. -/
def classCaptureSkipFrom (cls : Char → Bool) (cs : List Char) : Nat → Option (List Char)
  | 0 => match cs.takeWhile cls with
         | [] => none
         | g => some g
  | k + 1 =>
    match (cs.drop (k + 1)).takeWhile cls with
    | [] => classCaptureSkipFrom cls cs k
    | g => some g

/-- `\s*[:;]?\s*(CLASS+)` at a fixed position. -/
def classCaptureSkip (cls : Char → Bool) (cs : List Char) : Option (List Char) :=
  classCaptureSkipFrom cls cs (skipMax cs)

/-- Leftmost-match search: try the position matcher at every position from
the left (including the empty suffix) and keep the first success. -/
def scanLeftmost {α : Type} (patAt : List Char → Option α) : List Char → Option α
  | [] => patAt []
  | c :: rest =>
    match patAt (c :: rest) with
    | some r => some r
    | none => scanLeftmost patAt rest

/-- Alternation of literal heads: Python tries the alternatives left to
right at the current position, each followed by the same tail pattern. -/
def tryLabels (tail : List Char → Option (List Char)) :
    List (List Char) → List Char → Option (List Char)
  | [], _ => none
  | l :: ls, cs =>
    if leadsWith l cs then
      match tail (cs.drop l.length) with
      | some r => some r
      | none => tryLabels tail ls cs
    else tryLabels tail ls cs

/-- `re.search(r'(L1|L2|…)\s*[:;]?\s*(.*?)(?=STOP|$)', text)`. -/
def searchLabelLazy (labels : List (List Char)) (stop : List Char → Bool)
    (allowEnd : Bool) (cs : List Char) : Option (List Char) :=
  scanLeftmost (tryLabels (fun t => lazyCaptureSkip stop allowEnd t) labels) cs

/-- `re.search(r'(L1|L2|…)\s*[:;]?\s*(CLASS+)', text)`. -/
def searchLabelClass (labels : List (List Char)) (cls : Char → Bool)
    (cs : List Char) : Option (List Char) :=
  scanLeftmost (tryLabels (fun t => classCaptureSkip cls t) labels) cs

/-- `W1\s*W2\s*[:;]?\s*(CLASS+)` at a fixed position (the `\s*` between the
two words cannot backtrack usefully: the words start with non-whitespace). -/
def twoWordClassAt (w1 w2 : List Char) (cls : Char → Bool)
    (cs : List Char) : Option (List Char) :=
  if leadsWith w1 cs then
    let t1 := (cs.drop w1.length).dropWhile isPySpace
    if leadsWith w2 t1 then classCaptureSkip cls (t1.drop w2.length)
    else none
  else none

/-- The date separator class `[/.\-]`. -/
def isDateSep (c : Char) : Bool := c = '/' || c = '.' || c = '-'

/-- `([0-9০-৯]{2}[/.\-][0-9০-৯]{2}[/.\-][0-9০-৯]{4})` at a fixed position. -/
def dateAt : List Char → Option (List Char)
  | a :: b :: s1 :: c :: d :: s2 :: e :: f :: g :: h :: _ =>
    if isDigitEither a && isDigitEither b && isDateSep s1 &&
       isDigitEither c && isDigitEither d && isDateSep s2 &&
       isDigitEither e && isDigitEither f && isDigitEither g && isDigitEither h
    then some [a, b, s1, c, d, s2, e, f, g, h] else none
  | _ => none

/-- `re.search` for the date pattern. -/
def dateScan (cs : List Char) : Option (List Char) := scanLeftmost dateAt cs

/-- Tail `\s*[:;]?\s*(.*)` without `re.DOTALL`: the greedy group runs to
the first newline or the end; it can be empty, so it never fails. -/
def restCaptureLine (cs : List Char) : Option (List Char) :=
  some ((cs.drop (skipMax cs)).takeWhile (fun c => c ≠ '\n'))

/-- Tail `\s*[:;]?\s*(.*)` with `re.DOTALL`: the greedy group runs to the
end of the string. -/
def restCaptureAll (cs : List Char) : Option (List Char) :=
  some (cs.drop (skipMax cs))

/-- Index of the leftmost occurrence of the literal `pat`. -/
def findSubIdx (pat : List Char) : List Char → Option Nat
  | [] => if pat.isEmpty then some 0 else none
  | c :: rest =>
    if leadsWith pat (c :: rest) then some 0
    else (findSubIdx pat rest).map (· + 1)

/-- `text.split(pat)` restricted to its first two parts, exactly what
`blind_parse` uses: `parts[0]` is the text before the first occurrence and
`parts[1]` the text between the first and second occurrences (or the rest
when `pat` occurs once). When `pat` does not occur, `split` returns the
whole text as `parts[0]` with no `parts[1]`. -/
def splitParts01 (pat cs : List Char) : List Char × List Char :=
  match findSubIdx pat cs with
  | none => (cs, [])
  | some i =>
    let rest1 := cs.drop (i + pat.length)
    let part1 :=
      match findSubIdx pat rest1 with
      | some j => rest1.take j
      | none => rest1
    (cs.take i, part1)

/-- `text.split(pat)[0]` (used for `Occupation` in `extractor.py`). -/
def beforeSub (pat cs : List Char) : List Char :=
  match findSubIdx pat cs with
  | some i => cs.take i
  | none => cs

/-- Single-character `str.replace(a, b)`. -/
def replChar (a b : Char) (cs : List Char) : List Char :=
  cs.map fun c => if c = a then b else c

/-- `str.replace(pat, rep)`: replace every non-overlapping occurrence left
to right.  Implemented with fuel equal to the length (each step consumes
at least one character, so the fuel suffices). -/
def replaceSubF (pat rep : List Char) : Nat → List Char → List Char
  | 0, cs => cs
  | _, [] => []
  | fuel + 1, c :: rest =>
    if !pat.isEmpty && leadsWith pat (c :: rest) then
      rep ++ replaceSubF pat rep fuel ((c :: rest).drop pat.length)
    else c :: replaceSubF pat rep fuel rest

/-- `str.replace(pat, rep)`. -/
def replaceSub (pat rep cs : List Char) : List Char :=
  replaceSubF pat rep cs.length cs

/-- `re.sub(r'(L1|L2|…)[PUNCT]*', '', s)`: delete every occurrence of a
label followed by its greedy punctuation run (fuel as in `replaceSubF`). -/
def subLabelsF (labels : List (List Char)) (punct : Char → Bool) :
    Nat → List Char → List Char
  | 0, cs => cs
  | _, [] => []
  | fuel + 1, c :: rest =>
    match labels.find? (fun l => !l.isEmpty && leadsWith l (c :: rest)) with
    | some l => subLabelsF labels punct fuel (((c :: rest).drop l.length).dropWhile punct)
    | none => c :: subLabelsF labels punct fuel rest

/-- `re.sub(r'(L1|L2|…)[PUNCT]*', '', s)`. -/
def subLabels (labels : List (List Char)) (punct : Char → Bool)
    (cs : List Char) : List Char :=
  subLabelsF labels punct cs.length cs

/-- `re.sub(r'^[0-9০-৯]{3,4}[.\s]*', '', s)` (`final_repair.py` line 84):
greedily drop 4 (else 3) leading digits and the `[.\s]*` run after them. -/
def stripSerialLead (cs : List Char) : List Char :=
  let n := runLen isDigitEither cs
  if 3 ≤ n then (cs.drop (min 4 n)).dropWhile (fun c => c = '.' || isPySpace c)
  else cs

/-! ## The Bengali label tokens used by the patterns -/

def wNaam : List Char := "নাম".data
def wVoter : List Char := "ভোটার".data
def wNong : List Char := "নং".data
def wPita : List Char := "পিতা".data
def wShami : List Char := "স্বামী".data
def wMata : List Char := "মাতা".data
def wPesha : List Char := "পেশা".data
def wJonmo : List Char := "জন্ম".data
def wTarikh : List Char := "তারিখ".data
def wThikana : List Char := "ঠিকানা".data
def wElakar : List Char := "এলাকার".data

/-! ## Parsed-field records -/

/-- The column names shared by the spreadsheet and the parsers'
dictionaries. -/
inductive Col
  | serial | name | voterNo | father | mother | occupation | dob | address
  deriving DecidableEq, Repr

/-- A parse result as a Python dict: a key is present (`some`) or absent
(`none`).  Used for `robust_parse` and `blind_parse`. -/
structure RP where
  serial : Option String := none
  name : Option String := none
  voterNo : Option String := none
  father : Option String := none
  mother : Option String := none
  occupation : Option String := none
  dob : Option String := none
  address : Option String := none
  deriving DecidableEq, Repr

/-- Dict lookup `extracted.get(col)`. -/
def RP.get (p : RP) : Col → Option String
  | .serial => p.serial
  | .name => p.name
  | .voterNo => p.voterNo
  | .father => p.father
  | .mother => p.mother
  | .occupation => p.occupation
  | .dob => p.dob
  | .address => p.address

/-! ## `clean_text` and `robust_parse` (repair.py lines 27-78) -/

/-- `clean_text` from `repair.py` lines 27-32, on character lists:
`replace("\n"," ")`, `replace("|"," ")`, `replace("I"," ")`, then the
three label fixes `নাম-`→`নাম:`, `পিতা-`→`পিতা:`, `মাতা-`→`মাতা:`,
then `strip()`. -/
def cleanTextL (cs : List Char) : List Char :=
  stripL (replaceSub "মাতা-".data "মাতা:".data
    (replaceSub "পিতা-".data "পিতা:".data
      (replaceSub "নাম-".data "নাম:".data
        (replChar 'I' ' ' (replChar '|' ' ' (replChar '\n' ' ' cs))))))

/-- `clean_text(text)` on strings. -/
def clean_text (s : String) : String := String.mk (cleanTextL s.data)

/-- The class `[0-9০-৯a-zA-Z]` of the lenient voter-number group. -/
def isVoterChar (c : Char) : Bool := isDigitEither c || isAsciiLetter c

/-- `robust_parse(raw_text)` from `repair.py` lines 34-78 (the lenient
parser).  Each field mirrors one numbered regex of the source:
1 Serial, 2 Name, 3 Voter No with the 10-18-digit fallback, 4
Father/Husband, 5 Mother, 6 Occupation, 7 DOB, 8 Address. -/
def robustParseL (raw : List Char) : RP :=
  let t := cleanTextL raw
  { serial := (serialScan t).map (fun g => String.mk (toBengaliL g))
    name := (searchLabelLazy [wNaam] (spacesPlusThenStop [wVoter, wPita, wShami]) true t).map
      (fun g => String.mk (stripL g))
    voterNo :=
      match scanLeftmost (twoWordClassAt wVoter wNong isVoterChar) t with
      | some g => some (String.mk (toBengaliL g))
      | none => (runScan 10 18 t).map (fun g => String.mk (toBengaliL g))
    father := (searchLabelLazy [wPita, wShami] (spacesPlusThenStop [wMata]) true t).map
      (fun g => String.mk (stripL g))
    mother := (searchLabelLazy [wMata] (spacesPlusThenStop [wPesha]) true t).map
      (fun g => String.mk (stripL g))
    occupation := (searchLabelLazy [wPesha] (spacesPlusThenStop [wJonmo]) true t).map
      (fun g => String.mk (stripL g))
    dob := (dateScan t).map (fun g => String.mk (toBengaliL g))
    address := (scanLeftmost (tryLabels restCaptureLine [wThikana]) t).map
      (fun g => String.mk (toBengaliL (stripL g))) }

/-- `robust_parse` on strings. -/
def robust_parse (s : String) : RP := robustParseL s.data

/-! ## `parse_bengali_row` (parser.py lines 16-77, the strict parser) -/

/-- A strict parse result: `parser.py` pre-fills every field with `""`
(and returns the empty dict `{}` for blank input, which reads back as all
fields empty). -/
structure SP where
  serial : String := ""
  name : String := ""
  voterNo : String := ""
  father : String := ""
  mother : String := ""
  occupation : String := ""
  dob : String := ""
  address : String := ""
  deriving DecidableEq, Repr

/-- The lookahead `(?=[,;]?\s*জন্ম)` of the strict Occupation pattern. -/
def occStopStrict (cs : List Char) : Bool :=
  spacesStarThenStop [wJonmo] cs ||
    (match cs with
     | c :: rest => (c = ',' || c = ';') && spacesStarThenStop [wJonmo] rest
     | [] => false)

/-- The class `[0-9০-৯/.-]` of the strict DOB group. -/
def isDobChar (c : Char) : Bool := isDigitEither c || c = '/' || c = '.' || c = '-'

/-- `parse_bengali_row(text)` from `parser.py` lines 16-77.  Blank input
returns the empty dict, i.e. every field empty.  Fields mirror the
numbered regexes of the source; note the strict Name/Father/Mother
lookaheads have no `$` alternative, so they demand the next label to be
present. -/
def parseBengaliRowL (cs : List Char) : SP :=
  if blankL cs then {} else
  { serial := ((serialScanStrict cs).map (fun g => String.mk (toBengaliL g))).getD ""
    name := ((searchLabelLazy [wNaam] (spacesPlusThenStop [wVoter]) false cs).map
      (fun g => String.mk (stripL g))).getD ""
    voterNo := ((scanLeftmost (twoWordClassAt wVoter wNong isDigitEither) cs).map
      (fun g => String.mk (toBengaliL g))).getD ""
    father := ((searchLabelLazy [wPita, wShami] (spacesPlusThenStop [wMata]) false cs).map
      (fun g => String.mk (stripL g))).getD ""
    mother := ((searchLabelLazy [wMata] (spacesPlusThenStop [wPesha]) false cs).map
      (fun g => String.mk (stripL g))).getD ""
    occupation := ((searchLabelLazy [wPesha] occStopStrict false cs).map
      (fun g => String.mk (stripL g))).getD ""
    dob := ((scanLeftmost (twoWordClassAt wJonmo wTarikh isDobChar) cs).map
      (fun g => String.mk (toBengaliL g))).getD ""
    address := ((scanLeftmost (tryLabels restCaptureAll [wThikana]) cs).map
      (fun g => String.mk (toBengaliL (stripL (replChar '\n' ' ' g))))).getD "" }

/-- `parse_bengali_row` on strings. -/
def parse_bengali_row (s : String) : SP := parseBengaliRowL s.data

/-! ## `blind_parse` (final_repair.py lines 58-112, the anchored parser) -/

/-- The deletion class `[:;\-\s]` of `blind_parse`'s label scrubbing. -/
def blindPunct (c : Char) : Bool := c = ':' || c = ';' || c = '-' || isPySpace c

/-- `blind_parse(raw_text)` from `final_repair.py` lines 58-112: flatten
the text, anchor on the first 10-18-digit run as the voter number, take
the text before it (minus a leading 3-4-digit serial and any label words)
as the name, and the text after it up to the next label as the
father/husband; DOB and Address use the standard patterns. -/
def blindParseL (raw : List Char) : RP :=
  let t := stripL (replChar '\n' ' ' raw)
  let anchored : RP :=
    match runScan 10 18 t with
    | some v =>
      let parts := splitParts01 v t
      let beforePart := stripL parts.1
      let afterPart := stripL parts.2
      let nameText := stripL (subLabels [wNaam, wVoter, wElakar, wNong] blindPunct
        (stripSerialLead beforePart))
      { voterNo := some (String.mk (toBengaliL v))
        name := if nameText.isEmpty then none else some (String.mk nameText)
        father := (lazyCapture (spacesPlusThenStop [wMata, wPesha, wShami]) true afterPart).map
          (fun cap => String.mk (stripL (subLabels [wPita, wShami] blindPunct cap))) }
    | none => {}
  { anchored with
    dob := (dateScan t).map (fun g => String.mk (toBengaliL g))
    address := (scanLeftmost (tryLabels restCaptureLine [wThikana]) t).map
      (fun g => String.mk (toBengaliL (stripL g))) }

/-- `blind_parse` on strings. -/
def blind_parse (s : String) : RP := blindParseL s.data

/-! ## `parse_with_regex` (extractor.py lines 63-122) -/

/-- An extraction-pass record: every field a string (empty when not
found), the `missing` list, and the `Status` cell assigned by
`extractor.py` lines 180-184. -/
structure EP where
  serial : String := ""
  name : String := ""
  voterNo : String := ""
  father : String := ""
  mother : String := ""
  occupation : String := ""
  dob : String := ""
  address : String := ""
  missing : List String := []
  status : String := ""
  deriving DecidableEq, Repr

/-- The class `[^\n\r]` of the extractor's single-line captures. -/
def isLineChar (c : Char) : Bool := c ≠ '\n' && c ≠ '\r'

/-- `parse_with_regex(text)` from `extractor.py` lines 63-122 together
with the status decision of `main` (lines 180-184): `Review Needed` when
more than 2 of the tracked fields (Serial, Name, Voter No, Mother, DOB,
Address) are missing, else `OK`. -/
def parseWithRegexL (raw : List Char) : EP :=
  let t := replChar 'I' '।' (replChar '|' '।' raw)
  let serial := ((serialScan t).map (fun g => String.mk (toBengaliL g))).getD ""
  let name := ((searchLabelClass [wNaam] isLineChar t).map
    (fun g => String.mk (stripL g))).getD ""
  let voterNo := ((runScan 10 18 t).map (fun g => String.mk (toBengaliL g))).getD ""
  let father := ((searchLabelClass [wPita, wShami] isLineChar t).map
    (fun g => String.mk (stripL g))).getD ""
  let mother := ((searchLabelClass [wMata] isLineChar t).map
    (fun g => String.mk (stripL g))).getD ""
  let occupation := ((searchLabelClass [wPesha] isLineChar t).map
    (fun g => String.mk (stripL (beforeSub wJonmo g)))).getD ""
  let dob := ((dateScan t).map (fun g => String.mk (toBengaliL g))).getD ""
  let address := ((scanLeftmost (tryLabels restCaptureAll [wThikana]) t).map
    (fun g => String.mk (toBengaliL (stripL (replChar '\n' ' ' g))))).getD ""
  let missing :=
    (if serial = "" then ["Serial"] else []) ++
    (if name = "" then ["Name"] else []) ++
    (if voterNo = "" then ["Voter No"] else []) ++
    (if mother = "" then ["Mother"] else []) ++
    (if dob = "" then ["DOB"] else []) ++
    (if address = "" then ["Address"] else [])
  { serial := serial, name := name, voterNo := voterNo, father := father
    mother := mother, occupation := occupation, dob := dob, address := address
    missing := missing
    status := if 2 < missing.length then "Review Needed" else "OK" }

/-- `parse_with_regex` (plus the status decision) on strings. -/
def parse_with_regex (s : String) : EP := parseWithRegexL s.data

/-! ## Record keys (`repair.py` lines 174-182 / `final_repair.py` 18-31)

Keys are `(page, box)` pairs of `int`s obtained from the first
`re.search(r'(\d+)', …)` digit run of a name.  (In the data in play the
names carry ASCII digits; `\d` is modelled as the ASCII digit class.) -/

/-- `(page, box)`. -/
abbrev Key := Nat × Nat

/-- The first maximal ASCII digit run: `re.search(r'(\d+)', s)`. -/
def firstDigitRun : List Char → Option (List Char)
  | [] => none
  | c :: rest =>
    if isAsciiDigit c then some ((c :: rest).takeWhile isAsciiDigit)
    else firstDigitRun rest

/-- `int(...)` on a digit run. -/
def natOfDigits (cs : List Char) : Nat :=
  cs.foldl (fun n c => n * 10 + (c.toNat - '0'.toNat)) 0

/-- `int(re.search(r'(\d+)', s).group(1))`, `None`-safe. -/
def firstNum (s : String) : Option Nat :=
  (firstDigitRun s.data).map natOfDigits

/-- Python `path.split(sep)` for a single separator character: adjacent
separators and leading/trailing separators produce empty segments, and
the empty string splits to one empty segment. -/
def splitOnChar (sep : Char) : List Char → List (List Char)
  | [] => [[]]
  | c :: rest =>
    if c = sep then [] :: splitOnChar sep rest
    else
      match splitOnChar sep rest with
      | [] => [[c]]
      | h :: t => (c :: h) :: t

/-- Key derivation from a locator path, as `build_maps` / `build_image_map`
do it: `filepath.split(os.sep)`, first digit run of `parts[-2]` as the
page and of `parts[-1]` as the box; fail (caller skips) when either run
is absent or the path has fewer than two segments. -/
def derive_key (path : String) : Option Key :=
  match (splitOnChar '/' path.data).reverse with
  | lst :: sndLast :: _ =>
    match (firstDigitRun sndLast).map natOfDigits, (firstDigitRun lst).map natOfDigits with
    | some p, some b => some (p, b)
    | _, _ => none
  | _ => none

/-! ## The record table -/

/-- One row of the voter spreadsheet (`Final_Voter_List_Parsed.xlsx`
columns, `parser.py` line 116).  A pandas-`NaN` cell is modelled as a
blank string (see `blankL`). -/
structure Row where
  pageName : String
  boxName : String
  serial : String := ""
  name : String := ""
  voterNo : String := ""
  father : String := ""
  mother : String := ""
  occupation : String := ""
  dob : String := ""
  address : String := ""
  deriving DecidableEq, Repr

/-- Cell read `df.loc[idx, col]`. -/
def Row.get (r : Row) : Col → String
  | .serial => r.serial
  | .name => r.name
  | .voterNo => r.voterNo
  | .father => r.father
  | .mother => r.mother
  | .occupation => r.occupation
  | .dob => r.dob
  | .address => r.address

/-- Cell write `df.at[idx, col] = v`. -/
def Row.set (r : Row) : Col → String → Row
  | .serial, v => { r with serial := v }
  | .name, v => { r with name := v }
  | .voterNo, v => { r with voterNo := v }
  | .father, v => { r with father := v }
  | .mother, v => { r with mother := v }
  | .occupation, v => { r with occupation := v }
  | .dob, v => { r with dob := v }
  | .address, v => { r with address := v }

/-- Row selected by `df[["Name", "Voter No"]].isna().any(axis=1)` —
name or voter number missing. -/
def isBad (r : Row) : Bool := blankS r.name || blankS r.voterNo

/-- Key extraction for a row: `int(re.search(r'(\d+)', str(df.loc[idx,
"Page Name"])).group(1))` and the same for `"Box Name"`; any failure is
swallowed by the `try`/`except` and the row is skipped. -/
def rowKey (r : Row) : Option Key :=
  match firstNum r.pageName, firstNum r.boxName with
  | some p, some b => some (p, b)
  | _, _ => none

/-- One iteration sequence of the merge loop: for each listed column in
order, if the cell is missing (`pd.isna`) and the extracted dict has a
truthy (non-empty) value for it, write the value and raise the
`repaired`/`updated` flag. -/
def fillColsGo (ext : Col → Option String) : List Col → Row × Bool → Row × Bool
  | [], acc => acc
  | c :: cs, acc =>
    match ext c with
    | some v =>
      if blankS (acc.1.get c) && v ≠ "" then fillColsGo ext cs (acc.1.set c v, true)
      else fillColsGo ext cs acc
    | none => fillColsGo ext cs acc

/-- The merge loop shared by all repair steps (`repair.py` lines 193-196
and 232-235, `final_repair.py` lines 158-161): returns the updated row
and the `repaired`/`updated` flag. -/
def fillCols (cols : List Col) (ext : Col → Option String) (r : Row) : Row × Bool :=
  fillColsGo ext cols (r, false)

/-- The column list of the Tier 1 / Tier 2 merge loops (`repair.py` lines
193 and 232). -/
def mergeCols : List Col := [.name, .voterNo, .father, .mother, .dob, .address]

/-- The column list of the final sweep's merge loop (`final_repair.py`
line 158 — no Mother). -/
def sweepCols : List Col := [.name, .voterNo, .father, .dob, .address]

/-! ## The external TextExtractor -/

/-- Outcome of one Google-Cloud-Vision request for a given image path:
either an HTTP response carrying the `fullTextAnnotation` text (possibly
empty), or any failure — missing file, exception, timeout, or a JSON
response without the expected fields. -/
inductive GcvOutcome
  | success (text : String)
  | failure
  deriving DecidableEq, Repr

/-- `call_gcv_api(image_path)` (`repair.py` lines 121-142,
`final_repair.py` lines 33-52): a failure of any kind is caught and
returned as the empty string. -/
def call_gcv_api (resp : String → GcvOutcome) (path : String) : String :=
  match resp path with
  | .success t => t
  | .failure => ""

/-! ## The repair cascade (`repair.py` main, lines 144-253) -/

/-- Result of the Level 1 body for one row: the possibly-updated row,
the key for which the cached-text lookup (the Tier 1 attempt) was made,
and the key under which the row was put on `gcv_queue`. -/
structure L1Out where
  row : Row
  attempted : Option Key := none
  queued : Option Key := none
  deriving DecidableEq, Repr

/-- The Level 1 loop body (`repair.py` lines 174-207) for one row.
Rows that are not bad are not in `bad_rows` and are untouched; rows whose
page/box names yield no key are skipped by the `except`; otherwise the
report text for the key is looked up (`none` or the empty string is
falsy), parsed leniently and merged fill-blanks-only; the row is queued
for Level 2 unless both mandatory fields are now present. -/
def level1Row (tm : Key → Option String) (r : Row) : L1Out :=
  if !isBad r then { row := r }
  else
    match rowKey r with
    | none => { row := r }
    | some k =>
      match tm k with
      | some raw =>
        if raw = "" then { row := r, attempted := some k, queued := some k }
        else
          let ext := robust_parse raw
          let fill := fillCols mergeCols ext.get r
          if fill.2 then
            if !isBad fill.1 then { row := fill.1, attempted := some k }
            else { row := fill.1, attempted := some k, queued := some k }
          else { row := fill.1, attempted := some k, queued := some k }
      | none => { row := r, attempted := some k, queued := some k }

/-- The Level 2 loop body (`repair.py` lines 220-247) for one queued
entry: look the image up; when absent nothing further happens; otherwise
call GCV, treat an empty result as nothing, else parse leniently and
merge fill-blanks-only. -/
def tier2Row (im : Key → Option String) (resp : String → GcvOutcome)
    (k : Key) (r : Row) : Row :=
  match im k with
  | none => r
  | some path =>
    let newText := call_gcv_api resp path
    if newText = "" then r
    else (fillCols mergeCols (robust_parse newText).get r).1

/-- Level 1 applied to the whole sheet. -/
def level1Pass (tm : Key → Option String) (rows : List Row) : List L1Out :=
  rows.map (level1Row tm)

/-- Level 2 applied after Level 1: each queued row is processed once, in
queue order; unqueued rows pass through. `confirm` is the interactive
yes/no gate before any paid call. -/
def level2Pass (im : Key → Option String) (resp : String → GcvOutcome)
    (confirm : Bool) (outs : List L1Out) : List Row :=
  if confirm then
    outs.map (fun o =>
      match o.queued with
      | some k => tier2Row im resp k o.row
      | none => o.row)
  else outs.map (·.row)

/-- The whole cascade of `repair.py`'s `main`: Level 1 over every bad row,
then Level 2 over the queue. -/
def cascade (tm : Key → Option String) (im : Key → Option String)
    (resp : String → GcvOutcome) (confirm : Bool) (rows : List Row) : List Row :=
  level2Pass im resp confirm (level1Pass tm rows)

/-! ## The final sweep (`final_repair.py` main, lines 114-176) -/

/-- The final-sweep body for one row (`final_repair.py` lines 137-173):
for a still-bad row with a key and a located image, call GCV, blind-parse,
merge fill-blanks-only over `sweepCols`; when nothing was filled, the raw
text is dumped into the Address cell as `"RAW GCV: …"` for debugging. -/
def sweepRow (im : Key → Option String) (resp : String → GcvOutcome)
    (r : Row) : Row :=
  if !isBad r then r
  else
    match rowKey r with
    | none => r
    | some k =>
      match im k with
      | none => r
      | some path =>
        let raw := call_gcv_api resp path
        let ext := blind_parse raw
        let fill := fillCols sweepCols ext.get r
        if fill.2 then fill.1
        else { fill.1 with address := "RAW GCV: " ++ raw }

/-- The final sweep over the whole sheet. -/
def finalSweep (im : Key → Option String) (resp : String → GcvOutcome)
    (rows : List Row) : List Row :=
  rows.map (sweepRow im resp)

/-- The full repair pipeline the spec describes: `repair.py`'s cascade
followed by `final_repair.py`'s sweep over the same image index and
extractor. -/
def fullRepair (tm im : Key → Option String) (resp : String → GcvOutcome)
    (rows : List Row) : List Row :=
  finalSweep im resp (cascade tm im resp true rows)

/-! ## The cascade's event trace (for the ordering claims) -/

/-- Observable events of one cascade run: a Tier 1 attempt (cached-text
lookup) for a key, the Level 2 processing of a queued key, and an actual
paid GCV call. -/
inductive Ev
  | t1att (k : Key)
  | t2proc (k : Key)
  | gcvCall (k : Key)
  deriving DecidableEq, Repr

/-- The events of the Level 2 body for one queue entry. -/
def tier2Events (im : Key → Option String) (o : L1Out) : List Ev :=
  match o.queued with
  | none => []
  | some k =>
    match im k with
    | none => [Ev.t2proc k]
    | some _ => [Ev.t2proc k, Ev.gcvCall k]

/-- The full event trace of one cascade run: every Tier 1 attempt, in
sheet order, followed by the Level 2 events in queue order. -/
def cascadeTrace (tm im : Key → Option String) (rows : List Row) : List Ev :=
  (level1Pass tm rows).filterMap (fun o => o.attempted.map Ev.t1att) ++
    (level1Pass tm rows).flatMap (tier2Events im)

/-! ## Proof-support definitions -/

/-- The whole cascade acts on each row independently; `crow` is its
per-row effect (Level 1, then — when confirmed and queued — Level 2). -/
def crow (tm im : Key → Option String) (resp : String → GcvOutcome)
    (confirm : Bool) (r : Row) : Row :=
  let o := level1Row tm r
  if confirm then
    match o.queued with
    | some k => tier2Row im resp k o.row
    | none => o.row
  else o.row

/-- Every truthy value the extracted dict offers for a listed column is a
non-blank string (so a filled cell never reads as `NaN` again). -/
def ExtOKOn (cols : List Col) (ext : Col → Option String) : Prop :=
  ∀ c ∈ cols, ∀ v, ext c = some v → v ≠ "" → blankS v = false

/-- The merge loop has nothing to do: every still-blank listed cell has no
truthy extracted value. -/
def NoFill (cols : List Col) (ext : Col → Option String) (r : Row) : Prop :=
  ∀ c ∈ cols, blankS (r.get c) = true → ∀ v, ext c = some v → v = ""

/-- A row on which another cascade run can make no progress: whatever its
own sources (cached text, and — when Level 2 is confirmed — the GCV text
for its image) extract, none of it fills a blank cell. -/
def Saturated (tm im : Key → Option String) (resp : String → GcvOutcome)
    (confirm : Bool) (r : Row) : Prop :=
  isBad r = true → ∀ k, rowKey r = some k →
    (∀ raw, tm k = some raw → raw ≠ "" →
      NoFill mergeCols (robust_parse raw).get r) ∧
    (confirm = true → ∀ path, im k = some path → call_gcv_api resp path ≠ "" →
      NoFill mergeCols (robust_parse (call_gcv_api resp path)).get r)

/-- A character the lenient parser's field values may never contain
(claim about `clean_text`): pipe, capital `I`, newline. -/
@[reducible] def goodChar (c : Char) : Prop := c ≠ '|' ∧ c ≠ 'I' ∧ c ≠ '\n'

/-! ## Concrete fixtures for witnesses and counterexamples -/

/-- The Strict-parse scenario text of the spec. -/
def scenarioText : String := "0001 নাম: করিম ভোটার নং: 1234567890123 পিতা: রহিম"

/-- A fully blank record at key (3, 7). -/
def rowFixture : Row := { pageName := "Page_3", boxName := "box_7" }

/-- A record at key (3, 7) with a non-empty Address but missing Name. -/
def rowAddr : Row := { pageName := "Page_3", boxName := "box_7", address := "ঢাকা" }

/-- A record at key (3, 7) with a non-empty Name but missing Voter No. -/
def rowNamed : Row := { pageName := "Page_3", boxName := "box_7", name := "করিম" }

/-- An image index holding exactly key (3, 7). -/
def imageOne : Key → Option String := fun k => if k = ((3 : Nat), (7 : Nat)) then some "crop.jpg" else none

/-- An empty raw-text cache. -/
def tmEmpty : Key → Option String := fun _ => none

/-- An empty image index. -/
def imNone : Key → Option String := fun _ => none

/-- A GCV oracle answering every request with an unlabeled
voter-number-plus-father text. -/
def respHamid : String → GcvOutcome := fun _ => .success "1234567890 হামিদ"

/-- A GCV oracle answering every request with empty text. -/
def respEmptyText : String → GcvOutcome := fun _ => .success ""

/-- A GCV oracle failing every request. -/
def respFail : String → GcvOutcome := fun _ => .failure

/-- A text whose extraction leaves Name and Voter No empty while Serial,
Mother, DOB and Address are found. -/
def c2Text : String := "০০০১ মাতা: সালমা জন্ম তারিখ 12/03/1980 ঠিকানা: ঢাকা"

/-! # Theorems

First the lemma layer, then the claim theorems. -/

/-! ## Digit-map facts -/

theorem digitMap_idem (c : Char) : digitMap (digitMap c) = digitMap c := by
  unfold digitMap
  by_cases h0 : c = '0' <;> by_cases h1 : c = '1' <;> by_cases h2 : c = '2' <;>
    by_cases h3 : c = '3' <;> by_cases h4 : c = '4' <;> by_cases h5 : c = '5' <;>
    by_cases h6 : c = '6' <;> by_cases h7 : c = '7' <;> by_cases h8 : c = '8' <;>
    by_cases h9 : c = '9' <;> simp_all

theorem toBengaliL_idem (cs : List Char) : toBengaliL (toBengaliL cs) = toBengaliL cs := by
  unfold toBengaliL
  rw [List.map_map]
  exact List.map_congr_left fun c _ => digitMap_idem c

theorem toBengaliL_length (cs : List Char) : (toBengaliL cs).length = cs.length := by
  simp [toBengaliL]

theorem isPySpace_digitMap (c : Char) : isPySpace (digitMap c) = isPySpace c := by
  unfold digitMap
  by_cases h0 : c = '0' <;> by_cases h1 : c = '1' <;> by_cases h2 : c = '2' <;>
    by_cases h3 : c = '3' <;> by_cases h4 : c = '4' <;> by_cases h5 : c = '5' <;>
    by_cases h6 : c = '6' <;> by_cases h7 : c = '7' <;> by_cases h8 : c = '8' <;>
    by_cases h9 : c = '9' <;> simp_all <;> subst_vars <;> decide

theorem isBengaliDigit_digitMap (c : Char) (h : isAsciiDigit c = true) :
    isBengaliDigit (digitMap c) = true := by
  simp only [isAsciiDigit, Bool.or_eq_true, decide_eq_true_eq] at h
  rcases h with ((((((((h | h) | h) | h) | h) | h) | h) | h) | h) | h <;> subst h <;> decide

theorem digitMap_toNat (c : Char) (h : isAsciiDigit c = true) :
    (digitMap c).toNat = c.toNat + 2486 := by
  simp only [isAsciiDigit, Bool.or_eq_true, decide_eq_true_eq] at h
  rcases h with ((((((((h | h) | h) | h) | h) | h) | h) | h) | h) | h <;> subst h <;> decide

/-! ## Space/character-class facts -/

theorem not_voterChar_of_space (c : Char) (h : isPySpace c = true) :
    isVoterChar c = false := by
  simp only [isPySpace, Bool.or_eq_true, decide_eq_true_eq] at h
  rcases h with ((((h | h) | h) | h) | h) | h <;> subst h <;> decide

theorem not_digitEither_of_space (c : Char) (h : isPySpace c = true) :
    isDigitEither c = false := by
  simp only [isPySpace, Bool.or_eq_true, decide_eq_true_eq] at h
  rcases h with ((((h | h) | h) | h) | h) | h <;> subst h <;> decide

theorem not_dobChar_of_space (c : Char) (h : isPySpace c = true) :
    isDobChar c = false := by
  simp only [isPySpace, Bool.or_eq_true, decide_eq_true_eq] at h
  rcases h with ((((h | h) | h) | h) | h) | h <;> subst h <;> decide

/-! ## Blank / strip facts -/

theorem blankS_mk (l : List Char) : blankS (String.mk l) = blankL l := rfl

theorem dropWhile_all_eq_nil {p : Char → Bool} :
    ∀ l : List Char, (l.dropWhile p).all p = true → l.dropWhile p = [] := by
  intro l h
  induction l with
  | nil => rfl
  | cons a l ih =>
    by_cases ha : p a
    · rw [List.dropWhile_cons_of_pos ha] at h ⊢
      exact ih h
    · rw [List.dropWhile_cons_of_neg ha] at h
      simp only [List.all_cons, Bool.and_eq_true] at h
      exact absurd h.1 ha

theorem stripL_eq_nil_of_blank (cs : List Char) (h : blankL (stripL cs) = true) :
    stripL cs = [] := by
  unfold stripL at h ⊢
  set d := cs.dropWhile isPySpace with hd
  have h2 : ((d.reverse.dropWhile isPySpace)).all isPySpace = true := by
    rw [← List.all_reverse]
    exact h
  rw [dropWhile_all_eq_nil _ h2]
  rfl

theorem mk_stripL_ne_blank (g : List Char) (h : String.mk (stripL g) ≠ "") :
    blankS (String.mk (stripL g)) = false := by
  by_contra hb
  rw [Bool.not_eq_false, blankS_mk] at hb
  exact h (by rw [stripL_eq_nil_of_blank g hb])

theorem blankL_toBengaliL (m : List Char) : blankL (toBengaliL m) = blankL m := by
  unfold blankL toBengaliL
  rw [List.all_map]
  congr 1
  funext c
  exact isPySpace_digitMap c

/-! ## Row cell facts -/

theorem Row.get_set_same (r : Row) (c : Col) (v : String) : (r.set c v).get c = v := by
  cases c <;> rfl

theorem Row.get_set_ne (r : Row) (c c' : Col) (v : String) (h : c' ≠ c) :
    (r.set c' v).get c = r.get c := by
  cases c' <;> cases c <;> first | rfl | exact absurd rfl h

theorem Row.pageName_set (r : Row) (c : Col) (v : String) : (r.set c v).pageName = r.pageName := by
  cases c <;> rfl

theorem Row.boxName_set (r : Row) (c : Col) (v : String) : (r.set c v).boxName = r.boxName := by
  cases c <;> rfl

/-! ## Merge-loop facts -/

theorem fillColsGo_cons_none (ext : Col → Option String) (c0 : Col) (cs : List Col)
    (acc : Row × Bool) (h : ext c0 = none) :
    fillColsGo ext (c0 :: cs) acc = fillColsGo ext cs acc := by
  conv_lhs => rw [fillColsGo]
  rw [h]

theorem fillColsGo_cons_some (ext : Col → Option String) (c0 : Col) (cs : List Col)
    (acc : Row × Bool) (v : String) (h : ext c0 = some v) :
    fillColsGo ext (c0 :: cs) acc =
      if blankS (acc.1.get c0) && v ≠ "" then fillColsGo ext cs (acc.1.set c0 v, true)
      else fillColsGo ext cs acc := by
  conv_lhs => rw [fillColsGo]
  rw [h]

theorem fillColsGo_pageName (ext : Col → Option String) :
    ∀ (cols : List Col) (acc : Row × Bool),
      (fillColsGo ext cols acc).1.pageName = acc.1.pageName := by
  intro cols
  induction cols with
  | nil => intro acc; rfl
  | cons c cs ih =>
    intro acc
    unfold fillColsGo
    cases h : ext c with
    | none => exact ih acc
    | some v =>
      by_cases hcond : (blankS (acc.1.get c) && decide ¬v = "") = true
      · simp only [hcond, if_true]
        rw [ih]
        exact Row.pageName_set acc.1 c v
      · simp only [hcond, if_false]
        exact ih acc

theorem fillColsGo_boxName (ext : Col → Option String) :
    ∀ (cols : List Col) (acc : Row × Bool),
      (fillColsGo ext cols acc).1.boxName = acc.1.boxName := by
  intro cols
  induction cols with
  | nil => intro acc; rfl
  | cons c cs ih =>
    intro acc
    unfold fillColsGo
    cases h : ext c with
    | none => exact ih acc
    | some v =>
      by_cases hcond : (blankS (acc.1.get c) && decide ¬v = "") = true
      · simp only [hcond, if_true]
        rw [ih]
        exact Row.boxName_set acc.1 c v
      · simp only [hcond, if_false]
        exact ih acc

theorem rowKey_fillColsGo (ext : Col → Option String) (cols : List Col)
    (acc : Row × Bool) : rowKey (fillColsGo ext cols acc).1 = rowKey acc.1 := by
  unfold rowKey
  rw [fillColsGo_pageName, fillColsGo_boxName]

/-- A non-blank cell is never touched by the merge loop. -/
theorem fillColsGo_get_of_not_blank (ext : Col → Option String) :
    ∀ (cols : List Col) (acc : Row × Bool) (c : Col),
      blankS (acc.1.get c) = false →
      (fillColsGo ext cols acc).1.get c = acc.1.get c := by
  intro cols
  induction cols with
  | nil => intro acc c _; rfl
  | cons c0 cs ih =>
    intro acc c hc
    unfold fillColsGo
    cases hext : ext c0 with
    | none => exact ih acc c hc
    | some v =>
      by_cases hcond : (blankS (acc.1.get c0) && decide ¬v = "") = true
      · simp only [hcond, if_true]
        have hne : c0 ≠ c := by
          intro he
          rw [he] at hcond
          simp only [Bool.and_eq_true] at hcond
          rw [hcond.1] at hc
          exact Bool.true_eq_false.mp hc
        have hget : ((acc.1.set c0 v, true) : Row × Bool).1.get c = acc.1.get c :=
          Row.get_set_ne acc.1 c c0 v hne
        rw [ih (acc.1.set c0 v, true) c (by rw [hget]; exact hc), hget]
      · simp only [hcond, if_false]
        exact ih acc c hc

/-- A cell blank after the merge loop was blank before it. -/
theorem blank_of_fillColsGo_blank (ext : Col → Option String) (cols : List Col)
    (acc : Row × Bool) (c : Col)
    (h : blankS ((fillColsGo ext cols acc).1.get c) = true) :
    blankS (acc.1.get c) = true := by
  by_cases hb : blankS (acc.1.get c) = true
  · exact hb
  · rw [fillColsGo_get_of_not_blank ext cols acc c (Bool.not_eq_true _ ▸ hb)] at h
    exact absurd h hb

/-- When no blank listed cell has a truthy extracted value, the merge loop
does nothing at all. -/
theorem fillColsGo_noop (ext : Col → Option String) :
    ∀ (cols : List Col) (acc : Row × Bool),
      (∀ c ∈ cols, blankS (acc.1.get c) = true → ∀ v, ext c = some v → v = "") →
      fillColsGo ext cols acc = acc := by
  intro cols
  induction cols with
  | nil => intro acc _; rfl
  | cons c0 cs ih =>
    intro acc hno
    unfold fillColsGo
    cases hext : ext c0 with
    | none => exact ih acc fun c hc => hno c (List.mem_cons_of_mem c0 hc)
    | some v =>
      have hcond : (blankS (acc.1.get c0) && decide ¬v = "") = false := by
        by_cases hb : blankS (acc.1.get c0) = true
        · have := hno c0 (List.mem_cons_self c0 cs) hb v hext
          simp [this]
        · simp [Bool.not_eq_true _ ▸ hb]
      simp only [hcond, if_false]
      exact ih acc fun c hc => hno c (List.mem_cons_of_mem c0 hc)

/-- After a merge loop whose extracted values are non-blank, no blank
listed cell has a truthy extracted value left. -/
theorem fillColsGo_saturates (ext : Col → Option String) :
    ∀ (cols : List Col) (acc : Row × Bool) (c : Col),
      (∀ c' ∈ cols, ∀ v, ext c' = some v → v ≠ "" → blankS v = false) →
      c ∈ cols →
      blankS ((fillColsGo ext cols acc).1.get c) = true →
      ∀ v, ext c = some v → v = "" := by
  intro cols
  induction cols with
  | nil => intro acc c _ hc; exact absurd hc (List.not_mem_nil c)
  | cons c0 cs ih =>
    intro acc c hok hc hblank
    cases hext : ext c0 with
    | none =>
      rw [fillColsGo_cons_none ext c0 cs acc hext] at hblank
      rcases List.mem_cons.mp hc with he | hm
      · intro v hv; rw [he, hext] at hv; exact absurd hv (by simp)
      · exact ih acc c (fun c' hc' => hok c' (List.mem_cons_of_mem c0 hc')) hm hblank
    | some v0 =>
      rw [fillColsGo_cons_some ext c0 cs acc v0 hext] at hblank
      by_cases hcond : (blankS (acc.1.get c0) && decide ¬v0 = "") = true
      · rw [if_pos hcond] at hblank
        rcases List.mem_cons.mp hc with he | hm
        · subst he
          have hv0 : v0 ≠ "" := by
            simp only [Bool.and_eq_true, decide_eq_true_eq] at hcond
            exact hcond.2
          have hnb : blankS (((acc.1.set c v0, true) : Row × Bool).1.get c) = false := by
            rw [Row.get_set_same]
            exact hok c (List.mem_cons_self c cs) v0 hext hv0
          rw [fillColsGo_get_of_not_blank ext cs _ c hnb] at hblank
          rw [Row.get_set_same] at hblank
          have := hok c (List.mem_cons_self c cs) v0 hext hv0
          rw [hblank] at this
          exact absurd this (by simp)
        · exact ih _ c (fun c' hc' => hok c' (List.mem_cons_of_mem c0 hc')) hm hblank
      · rw [if_neg (by simpa using hcond)] at hblank
        rcases List.mem_cons.mp hc with he | hm
        · subst he
          simp only [Bool.and_eq_true, decide_eq_true_eq, not_and] at hcond
          have hb0 : blankS (acc.1.get c) = true := blank_of_fillColsGo_blank ext cs acc c hblank
          intro v hv
          rw [hext] at hv
          cases hv
          by_contra hne
          exact absurd hne (by simpa using hcond hb0)
        · exact ih acc c (fun c' hc' => hok c' (List.mem_cons_of_mem c0 hc')) hm hblank

/-- The `repaired`/`updated` flag never falls back to `false`. -/
theorem fillColsGo_flag_mono (ext : Col → Option String) :
    ∀ (cols : List Col) (acc : Row × Bool), acc.2 = true →
      (fillColsGo ext cols acc).2 = true := by
  intro cols
  induction cols with
  | nil => intro acc h; exact h
  | cons c0 cs ih =>
    intro acc h
    cases hext : ext c0 with
    | none => rw [fillColsGo_cons_none ext c0 cs acc hext]; exact ih acc h
    | some v =>
      rw [fillColsGo_cons_some ext c0 cs acc v hext]
      by_cases hcond : (blankS (acc.1.get c0) && decide ¬v = "") = true
      · rw [if_pos hcond]; exact ih _ rfl
      · rw [if_neg (by simpa using hcond)]; exact ih acc h

/-- When the merge loop reports `updated == False`, the row is unchanged. -/
theorem fillColsGo_row_of_flag_false (ext : Col → Option String) :
    ∀ (cols : List Col) (acc : Row × Bool),
      (fillColsGo ext cols acc).2 = false →
      (fillColsGo ext cols acc).1 = acc.1 := by
  intro cols
  induction cols with
  | nil => intro acc _; rfl
  | cons c0 cs ih =>
    intro acc hflag
    cases hext : ext c0 with
    | none =>
      rw [fillColsGo_cons_none ext c0 cs acc hext] at hflag ⊢
      exact ih acc hflag
    | some v =>
      rw [fillColsGo_cons_some ext c0 cs acc v hext] at hflag ⊢
      by_cases hcond : (blankS (acc.1.get c0) && decide ¬v = "") = true
      · rw [if_pos hcond] at hflag
        exact absurd hflag (by rw [fillColsGo_flag_mono ext cs _ rfl]; simp)
      · rw [if_neg (by simpa using hcond)] at hflag ⊢
        exact ih acc hflag

/-- `NoFill` for the listed columns makes the full merge a no-op. -/
theorem fillCols_noop_of_noFill (cols : List Col) (ext : Col → Option String)
    (r : Row) (h : NoFill cols ext r) : fillCols cols ext r = (r, false) :=
  fillColsGo_noop ext cols (r, false) h

/-- After a merge with non-blank values, the result row satisfies
`NoFill` for the same extraction — a second identical merge is mute. -/
theorem noFill_of_fillCols (cols : List Col) (ext : Col → Option String)
    (r : Row) (hok : ExtOKOn cols ext) : NoFill cols ext (fillCols cols ext r).1 :=
  fun c hc hblank => fillColsGo_saturates ext cols (r, false) c hok hc hblank

/-- `NoFill` survives any later merge (cells only go from blank to
non-blank). -/
theorem noFill_mono (cols cols' : List Col) (ext ext' : Col → Option String)
    (r : Row) (h : NoFill cols ext r) :
    NoFill cols ext (fillColsGo ext' cols' (r, false)).1 :=
  fun c hc hblank => h c hc (blank_of_fillColsGo_blank ext' cols' (r, false) c hblank)

/-! ## Scanner facts: captured groups are substrings of the input,
class groups are non-empty runs of their class -/

theorem blankL_false_of_mem (g : List Char) (c : Char) (hc : c ∈ g)
    (h : isPySpace c = false) : blankL g = false := by
  by_contra hb
  rw [Bool.not_eq_false] at hb
  rw [List.all_eq_true.mp hb c hc] at h
  exact absurd h (by simp)

theorem stripL_subset (cs : List Char) : stripL cs ⊆ cs := by
  intro a ha
  unfold stripL at ha
  rw [List.mem_reverse] at ha
  exact (List.dropWhile_sublist isPySpace).mem
    (List.mem_reverse.mp ((List.dropWhile_sublist isPySpace).mem ha))

theorem lazyCapture_subset (stop : List Char → Bool) (ae : Bool) :
    ∀ (cs g : List Char), lazyCapture stop ae cs = some g → g ⊆ cs := by
  intro cs
  induction cs with
  | nil =>
    intro g h
    unfold lazyCapture at h
    by_cases hae : ae = true
    · rw [if_pos hae] at h; cases h; exact fun a ha => ha
    · rw [if_neg hae] at h; exact absurd h (by simp)
  | cons c rest ih =>
    intro g h
    unfold lazyCapture at h
    by_cases hs : stop (c :: rest) = true
    · rw [if_pos hs] at h; cases h; exact fun a ha => absurd ha (List.not_mem_nil a)
    · rw [if_neg hs] at h
      by_cases hn : c = '\n'
      · rw [if_pos hn] at h; exact absurd h (by simp)
      · rw [if_neg hn] at h
        rcases Option.map_eq_some'.mp h with ⟨cap, hcap, hg⟩
        subst hg
        intro a ha
        rcases List.mem_cons.mp ha with he | hm
        · rw [he]; exact List.mem_cons_self c rest
        · exact List.mem_cons_of_mem c (ih cap hcap hm)

theorem lazyCaptureSkipFrom_subset (stop : List Char → Bool) (ae : Bool)
    (cs : List Char) : ∀ (k : Nat) (g : List Char),
      lazyCaptureSkipFrom stop ae cs k = some g → g ⊆ cs := by
  intro k
  induction k with
  | zero =>
    intro g h
    exact lazyCapture_subset stop ae cs g h
  | succ k ih =>
    intro g h
    unfold lazyCaptureSkipFrom at h
    cases hlc : lazyCapture stop ae (cs.drop (k + 1)) with
    | some cap =>
      rw [hlc] at h
      cases h
      exact fun a ha => List.mem_of_mem_drop (lazyCapture_subset stop ae _ _ hlc ha)
    | none =>
      rw [hlc] at h
      exact ih g h

theorem lazyCaptureSkip_subset (stop : List Char → Bool) (ae : Bool)
    (cs g : List Char) (h : lazyCaptureSkip stop ae cs = some g) : g ⊆ cs :=
  lazyCaptureSkipFrom_subset stop ae cs (skipMax cs) g h

theorem classCaptureSkipFrom_subset (cls : Char → Bool) (cs : List Char) :
    ∀ (k : Nat) (g : List Char), classCaptureSkipFrom cls cs k = some g → g ⊆ cs := by
  intro k
  induction k with
  | zero =>
    intro g h
    unfold classCaptureSkipFrom at h
    cases htw : cs.takeWhile cls with
    | nil => rw [htw] at h; exact absurd h (by simp)
    | cons a t =>
      rw [htw] at h
      cases h
      exact fun x hx => (List.takeWhile_sublist cls).mem (htw ▸ hx)
  | succ k ih =>
    intro g h
    unfold classCaptureSkipFrom at h
    cases htw : (cs.drop (k + 1)).takeWhile cls with
    | nil => rw [htw] at h; exact ih g h
    | cons a t =>
      rw [htw] at h
      cases h
      exact fun x hx =>
        List.mem_of_mem_drop ((List.takeWhile_sublist cls).mem (htw ▸ hx))

theorem classCaptureSkip_subset (cls : Char → Bool) (cs g : List Char)
    (h : classCaptureSkip cls cs = some g) : g ⊆ cs :=
  classCaptureSkipFrom_subset cls cs (skipMax cs) g h

theorem classCaptureSkipFrom_spec (cls : Char → Bool) (cs : List Char) :
    ∀ (k : Nat) (g : List Char), classCaptureSkipFrom cls cs k = some g →
      g ≠ [] ∧ ∀ c ∈ g, cls c = true := by
  intro k
  induction k with
  | zero =>
    intro g h
    unfold classCaptureSkipFrom at h
    cases htw : cs.takeWhile cls with
    | nil => rw [htw] at h; exact absurd h (by simp)
    | cons a t =>
      rw [htw] at h
      cases h
      exact ⟨by simp, fun c hc => List.mem_takeWhile_imp (htw ▸ hc)⟩
  | succ k ih =>
    intro g h
    unfold classCaptureSkipFrom at h
    cases htw : (cs.drop (k + 1)).takeWhile cls with
    | nil => rw [htw] at h; exact ih g h
    | cons a t =>
      rw [htw] at h
      cases h
      exact ⟨by simp, fun c hc => List.mem_takeWhile_imp (htw ▸ hc)⟩

theorem classCaptureSkip_spec (cls : Char → Bool) (cs g : List Char)
    (h : classCaptureSkip cls cs = some g) : g ≠ [] ∧ ∀ c ∈ g, cls c = true :=
  classCaptureSkipFrom_spec cls cs (skipMax cs) g h

theorem tryLabels_mono {P : List Char → Prop}
    (tail : List Char → Option (List Char))
    (htail : ∀ t g, tail t = some g → (∀ x ∈ g, x ∈ t) ∧ P g) :
    ∀ (ls : List (List Char)) (cs g : List Char),
      tryLabels tail ls cs = some g → (∀ x ∈ g, x ∈ cs) ∧ P g := by
  intro ls
  induction ls with
  | nil => intro cs g h; exact absurd h (by simp [tryLabels])
  | cons l ls ih =>
    intro cs g h
    unfold tryLabels at h
    by_cases hl : leadsWith l cs = true
    · rw [if_pos hl] at h
      cases htl : tail (cs.drop l.length) with
      | some r =>
        rw [htl] at h
        cases h
        rcases htail _ _ htl with ⟨hsub, hp⟩
        exact ⟨fun x hx => List.mem_of_mem_drop (hsub x hx), hp⟩
      | none =>
        rw [htl] at h
        exact ih cs g h
    · rw [if_neg hl] at h
      exact ih cs g h

theorem scanLeftmost_mono {P : List Char → Prop}
    (patAt : List Char → Option (List Char))
    (hpat : ∀ t g, patAt t = some g → (∀ x ∈ g, x ∈ t) ∧ P g) :
    ∀ (cs g : List Char), scanLeftmost patAt cs = some g →
      (∀ x ∈ g, x ∈ cs) ∧ P g := by
  intro cs
  induction cs with
  | nil => intro g h; exact hpat [] g h
  | cons c rest ih =>
    intro g h
    unfold scanLeftmost at h
    cases hp : patAt (c :: rest) with
    | some r => rw [hp] at h; cases h; exact hpat _ _ hp
    | none =>
      rw [hp] at h
      rcases ih g h with ⟨hsub, hq⟩
      exact ⟨fun x hx => List.mem_cons_of_mem c (hsub x hx), hq⟩

/-- Propagation form with no property payload. -/
theorem scanLeftmost_subset (patAt : List Char → Option (List Char))
    (hpat : ∀ t g, patAt t = some g → ∀ x ∈ g, x ∈ t)
    (cs g : List Char) (h : scanLeftmost patAt cs = some g) : ∀ x ∈ g, x ∈ cs :=
  (scanLeftmost_mono (P := fun _ => True) patAt
    (fun t g hg => ⟨hpat t g hg, trivial⟩) cs g h).1

theorem twoWordClassAt_mono (w1 w2 : List Char) (cls : Char → Bool)
    (t g : List Char) (h : twoWordClassAt w1 w2 cls t = some g) :
    (∀ x ∈ g, x ∈ t) ∧ (g ≠ [] ∧ ∀ c ∈ g, cls c = true) := by
  unfold twoWordClassAt at h
  by_cases h1 : leadsWith w1 t = true
  · rw [if_pos h1] at h
    by_cases h2 : leadsWith w2 ((t.drop w1.length).dropWhile isPySpace) = true
    · rw [if_pos h2] at h
      refine ⟨fun x hx => ?_, classCaptureSkip_spec cls _ g h⟩
      have := classCaptureSkip_subset cls _ g h hx
      exact List.mem_of_mem_drop
        ((List.dropWhile_sublist isPySpace).mem (List.mem_of_mem_drop this))
    · rw [if_neg h2] at h; exact absurd h (by simp)
  · rw [if_neg h1] at h; exact absurd h (by simp)

theorem take_runLen_all (p : Char → Bool) :
    ∀ (l : List Char) (k : Nat), k ≤ runLen p l → ∀ c ∈ l.take k, p c = true := by
  intro l
  induction l with
  | nil => intro k _ c hc; rw [List.take_nil] at hc; exact absurd hc (List.not_mem_nil c)
  | cons a l ih =>
    intro k hk c hc
    by_cases hpa : p a = true
    · rw [show runLen p (a :: l) = runLen p l + 1 by simp [runLen, hpa]] at hk
      cases k with
      | zero => exact absurd hc (by simp)
      | succ j =>
        rw [List.take_succ_cons] at hc
        rcases List.mem_cons.mp hc with he | hm
        · rw [he]; exact hpa
        · exact ih j (Nat.succ_le_succ_iff.mp hk) c hm
    · rw [show runLen p (a :: l) = 0 by simp [runLen, hpa]] at hk
      rw [Nat.le_zero.mp hk] at hc
      exact absurd hc (by simp)

theorem runScan_mono (lo hi : Nat) (hlo : 1 ≤ lo) (hhi : 1 ≤ hi) :
    ∀ (cs g : List Char), runScan lo hi cs = some g →
      (∀ x ∈ g, x ∈ cs) ∧ (g ≠ [] ∧ ∀ c ∈ g, isDigitEither c = true) := by
  intro cs
  induction cs with
  | nil => intro g h; exact absurd h (by simp [runScan])
  | cons c rest ih =>
    intro g h
    unfold runScan at h
    by_cases hrl : lo ≤ runLen isDigitEither (c :: rest)
    · rw [if_pos hrl] at h
      cases h
      refine ⟨fun x hx => List.mem_of_mem_take hx, ?_, ?_⟩
      · have hmin : 1 ≤ min hi (runLen isDigitEither (c :: rest)) :=
          le_min hhi (le_trans hlo hrl)
        intro hnil
        rw [List.take_eq_nil_iff] at hnil
        rcases hnil with h' | h'
        · omega
        · exact absurd h' (by simp)
      · exact fun x hx =>
          take_runLen_all isDigitEither (c :: rest) _ (min_le_right _ _) x hx
    · rw [if_neg hrl] at h
      rcases ih g h with ⟨hsub, hrest⟩
      exact ⟨fun x hx => List.mem_cons_of_mem c (hsub x hx), hrest⟩

theorem dateAt_mono (cs g : List Char) (h : dateAt cs = some g) :
    (∀ x ∈ g, x ∈ cs) ∧ ∃ a t, g = a :: t ∧ isDigitEither a = true := by
  unfold dateAt at h
  split at h
  case h_1 a b s1 c d s2 e f g4 h4 tail =>
    split at h
    case isTrue hcond =>
      cases h
      simp only [Bool.and_eq_true] at hcond
      constructor
      · intro x hx
        simp only [List.mem_cons, List.not_mem_nil, or_false] at hx
        rcases hx with rfl | rfl | rfl | rfl | rfl | rfl | rfl | rfl | rfl | rfl <;> simp
      · exact ⟨a, _, rfl, hcond.1.1.1.1.1.1.1.1.1⟩
    case isFalse _ => exact absurd h (by simp)
  case h_2 => exact absurd h (by simp)

theorem restCaptureLine_subset (t g : List Char) (h : restCaptureLine t = some g) :
    ∀ x ∈ g, x ∈ t := by
  unfold restCaptureLine at h
  cases h
  exact fun x hx =>
    List.mem_of_mem_drop ((List.takeWhile_sublist _).mem hx)

theorem restCaptureAll_subset (t g : List Char) (h : restCaptureAll t = some g) :
    ∀ x ∈ g, x ∈ t := by
  unfold restCaptureAll at h
  cases h
  exact fun x hx => List.mem_of_mem_drop hx

theorem not_space_of_voterChar (c : Char) (h : isVoterChar c = true) :
    isPySpace c = false := by
  by_contra h'
  rw [Bool.not_eq_false] at h'
  rw [not_voterChar_of_space c h'] at h
  exact absurd h (by simp)

theorem not_space_of_digitEither (c : Char) (h : isDigitEither c = true) :
    isPySpace c = false := by
  by_contra h'
  rw [Bool.not_eq_false] at h'
  rw [not_digitEither_of_space c h'] at h
  exact absurd h (by simp)

/-! ## Every truthy value `robust_parse` produces reads back as non-`NaN`

(The names are stripped, the digit fields are non-empty digit runs whose
target-script images are non-whitespace.) -/

theorem blank_mk_toBengali_false (g : List Char) (c : Char) (hc : c ∈ g)
    (h : isPySpace c = false) :
    blankS (String.mk (toBengaliL g)) = false := by
  rw [blankS_mk, blankL_toBengaliL]
  exact blankL_false_of_mem g c hc h

theorem robust_parse_extOK (raw : String) :
    ExtOKOn mergeCols (robust_parse raw).get := by
  intro c hc v hv hne
  simp only [mergeCols, List.mem_cons, List.not_mem_nil, or_false] at hc
  unfold robust_parse robustParseL at hv
  rcases hc with rfl | rfl | rfl | rfl | rfl | rfl
  · -- Name
    simp only [RP.get] at hv
    rcases Option.map_eq_some'.mp hv with ⟨g, _, hg⟩
    subst hg
    exact mk_stripL_ne_blank g hne
  · -- Voter No
    simp only [RP.get] at hv
    cases hscan : scanLeftmost (twoWordClassAt wVoter wNong isVoterChar) (cleanTextL raw.data) with
    | some g =>
      rw [hscan] at hv
      cases hv
      have hspec := (scanLeftmost_mono (P := fun g => g ≠ [] ∧ ∀ c ∈ g, isVoterChar c = true)
        (twoWordClassAt wVoter wNong isVoterChar)
        (fun t g h => twoWordClassAt_mono wVoter wNong isVoterChar t g h) _ _ hscan).2
      obtain ⟨a, t, rfl⟩ : ∃ a t, g = a :: t := by
        cases g with
        | nil => exact absurd rfl hspec.1
        | cons a t => exact ⟨a, t, rfl⟩
      exact blank_mk_toBengali_false _ a (List.mem_cons_self a t)
        (not_space_of_voterChar a (hspec.2 a (List.mem_cons_self a t)))
    | none =>
      rw [hscan] at hv
      rcases Option.map_eq_some'.mp hv with ⟨g, hg, hgv⟩
      subst hgv
      have hspec := (runScan_mono 10 18 (by omega) (by omega) _ g hg).2
      obtain ⟨a, t, rfl⟩ : ∃ a t, g = a :: t := by
        cases g with
        | nil => exact absurd rfl hspec.1
        | cons a t => exact ⟨a, t, rfl⟩
      exact blank_mk_toBengali_false _ a (List.mem_cons_self a t)
        (not_space_of_digitEither a (hspec.2 a (List.mem_cons_self a t)))
  · -- Father/Husband
    simp only [RP.get] at hv
    rcases Option.map_eq_some'.mp hv with ⟨g, _, hg⟩
    subst hg
    exact mk_stripL_ne_blank g hne
  · -- Mother
    simp only [RP.get] at hv
    rcases Option.map_eq_some'.mp hv with ⟨g, _, hg⟩
    subst hg
    exact mk_stripL_ne_blank g hne
  · -- DOB
    simp only [RP.get] at hv
    rcases Option.map_eq_some'.mp hv with ⟨g, hg, hgv⟩
    subst hgv
    have hspec := (scanLeftmost_mono
      (P := fun g => ∃ a t, g = a :: t ∧ isDigitEither a = true)
      dateAt (fun t g h => dateAt_mono t g h) _ _ hg).2
    rcases hspec with ⟨a, t, rfl, ha⟩
    exact blank_mk_toBengali_false (a :: t) a (List.mem_cons_self a t)
      (not_space_of_digitEither a ha)
  · -- Address
    simp only [RP.get] at hv
    rcases Option.map_eq_some'.mp hv with ⟨g, _, hgv⟩
    subst hgv
    by_contra hb
    rw [Bool.not_eq_false, blankS_mk, blankL_toBengaliL] at hb
    have : stripL g = [] := stripL_eq_nil_of_blank g hb
    rw [this] at hne
    exact hne rfl

/-! ## Level 1 / Level 2 branch characterisations -/

theorem level1Row_not_bad (tm : Key → Option String) (r : Row) (hb : isBad r = false) :
    level1Row tm r = { row := r } := by
  simp [level1Row, hb]

theorem level1Row_no_key (tm : Key → Option String) (r : Row) (hb : isBad r = true)
    (hk : rowKey r = none) : level1Row tm r = { row := r } := by
  simp [level1Row, hb, hk]

theorem level1Row_tm_none (tm : Key → Option String) (r : Row) (k : Key)
    (hb : isBad r = true) (hk : rowKey r = some k) (htm : tm k = none) :
    level1Row tm r = { row := r, attempted := some k, queued := some k } := by
  simp [level1Row, hb, hk, htm]

theorem level1Row_tm_empty (tm : Key → Option String) (r : Row) (k : Key)
    (hb : isBad r = true) (hk : rowKey r = some k) (htm : tm k = some "") :
    level1Row tm r = { row := r, attempted := some k, queued := some k } := by
  simp [level1Row, hb, hk, htm]

theorem level1Row_tm_text (tm : Key → Option String) (r : Row) (k : Key) (raw : String)
    (hb : isBad r = true) (hk : rowKey r = some k) (htm : tm k = some raw)
    (hraw : raw ≠ "") :
    level1Row tm r =
      if (fillCols mergeCols (robust_parse raw).get r).2 &&
          !isBad (fillCols mergeCols (robust_parse raw).get r).1 then
        { row := (fillCols mergeCols (robust_parse raw).get r).1, attempted := some k }
      else
        { row := (fillCols mergeCols (robust_parse raw).get r).1,
          attempted := some k, queued := some k } := by
  simp only [level1Row, hb, hk, htm, Bool.not_true, if_false, hraw, if_neg hraw]
  by_cases h2 : (fillCols mergeCols (robust_parse raw).get r).2 = true <;>
    by_cases hbad : isBad (fillCols mergeCols (robust_parse raw).get r).1 = true <;>
    simp [h2, hbad]

theorem tier2Row_none (im : Key → Option String) (resp : String → GcvOutcome)
    (k : Key) (r : Row) (him : im k = none) : tier2Row im resp k r = r := by
  simp [tier2Row, him]

theorem tier2Row_empty (im : Key → Option String) (resp : String → GcvOutcome)
    (k : Key) (r : Row) (path : String) (him : im k = some path)
    (ht : call_gcv_api resp path = "") : tier2Row im resp k r = r := by
  simp [tier2Row, him, ht]

theorem tier2Row_text (im : Key → Option String) (resp : String → GcvOutcome)
    (k : Key) (r : Row) (path : String) (him : im k = some path)
    (ht : call_gcv_api resp path ≠ "") :
    tier2Row im resp k r =
      (fillCols mergeCols (robust_parse (call_gcv_api resp path)).get r).1 := by
  simp [tier2Row, him, ht]

theorem rowKey_tier2Row (im : Key → Option String) (resp : String → GcvOutcome)
    (k : Key) (r : Row) : rowKey (tier2Row im resp k r) = rowKey r := by
  cases him : im k with
  | none => rw [tier2Row_none im resp k r him]
  | some path =>
    by_cases ht : call_gcv_api resp path = ""
    · rw [tier2Row_empty im resp k r path him ht]
    · rw [tier2Row_text im resp k r path him ht]
      exact rowKey_fillColsGo _ _ _

theorem rowKey_level1Row (tm : Key → Option String) (r : Row) :
    rowKey (level1Row tm r).row = rowKey r := by
  cases hb : isBad r with
  | false => rw [level1Row_not_bad tm r hb]
  | true =>
    cases hk : rowKey r with
    | none => rw [level1Row_no_key tm r hb hk]; exact hk
    | some k =>
      cases htm : tm k with
      | none => rw [level1Row_tm_none tm r k hb hk htm]; exact hk
      | some raw =>
        by_cases hraw : raw = ""
        · subst hraw
          rw [level1Row_tm_empty tm r k hb hk htm]
          exact hk
        · rw [level1Row_tm_text tm r k raw hb hk htm hraw]
          by_cases hdone : ((fillCols mergeCols (robust_parse raw).get r).2 &&
              !isBad (fillCols mergeCols (robust_parse raw).get r).1) = true
          · rw [if_pos hdone]
            exact (rowKey_fillColsGo _ _ _).trans hk
          · rw [if_neg hdone]
            exact (rowKey_fillColsGo _ _ _).trans hk

theorem rowKey_crow (tm im : Key → Option String) (resp : String → GcvOutcome)
    (confirm : Bool) (r : Row) :
    rowKey (crow tm im resp confirm r) = rowKey r := by
  simp only [crow]
  split
  · split
    · rw [rowKey_tier2Row]; exact rowKey_level1Row tm r
    · exact rowKey_level1Row tm r
  · exact rowKey_level1Row tm r

theorem crow_not_bad (tm im : Key → Option String) (resp : String → GcvOutcome)
    (confirm : Bool) (r : Row) (hb : isBad r = false) :
    crow tm im resp confirm r = r := by
  simp only [crow]
  rw [level1Row_not_bad tm r hb]
  cases confirm <;> rfl

theorem crow_no_key (tm im : Key → Option String) (resp : String → GcvOutcome)
    (confirm : Bool) (r : Row) (hb : isBad r = true) (hk : rowKey r = none) :
    crow tm im resp confirm r = r := by
  simp only [crow]
  rw [level1Row_no_key tm r hb hk]
  cases confirm <;> rfl

/-! ## The cascade is per-row -/

theorem cascade_eq_map (tm im : Key → Option String) (resp : String → GcvOutcome)
    (confirm : Bool) (rows : List Row) :
    cascade tm im resp confirm rows = rows.map (crow tm im resp confirm) := by
  cases confirm <;>
    simp only [cascade, level2Pass, level1Pass, crow, List.map_map, if_true, if_false,
      Bool.false_eq_true] <;>
    try rfl

/-! ## A cascaded row is saturated, and the cascade fixes saturated rows -/

theorem crow_fixed (tm im : Key → Option String) (resp : String → GcvOutcome)
    (confirm : Bool) (r : Row) (hsat : Saturated tm im resp confirm r) :
    crow tm im resp confirm r = r := by
  cases hb : isBad r with
  | false => exact crow_not_bad tm im resp confirm r hb
  | true =>
    cases hk : rowKey r with
    | none => exact crow_no_key tm im resp confirm r hb hk
    | some k =>
      obtain ⟨hs1, hs2⟩ := hsat hb k hk
      have htier2 : confirm = true → tier2Row im resp k r = r := by
        intro hcf
        cases him : im k with
        | none => exact tier2Row_none im resp k r him
        | some path =>
          by_cases ht : call_gcv_api resp path = ""
          · exact tier2Row_empty im resp k r path him ht
          · rw [tier2Row_text im resp k r path him ht,
              fillCols_noop_of_noFill _ _ _ (hs2 hcf path him ht)]
      simp only [crow]
      cases htm : tm k with
      | none =>
        rw [level1Row_tm_none tm r k hb hk htm]
        cases hcf : confirm
        · rfl
        · exact htier2 hcf
      | some raw =>
        by_cases hraw : raw = ""
        · subst hraw
          rw [level1Row_tm_empty tm r k hb hk htm]
          cases hcf : confirm
          · rfl
          · exact htier2 hcf
        · have hnoop : fillCols mergeCols (robust_parse raw).get r = (r, false) :=
            fillCols_noop_of_noFill _ _ _ (hs1 raw htm hraw)
          rw [level1Row_tm_text tm r k raw hb hk htm hraw, hnoop]
          simp only [Bool.false_and, if_false, Bool.false_eq_true]
          cases hcf : confirm
          · rfl
          · exact htier2 hcf

/-- Reading `crow` off a queued Level 1 outcome. -/
theorem crow_queued (tm im : Key → Option String) (resp : String → GcvOutcome)
    (confirm : Bool) (r r1 : Row) (a : Option Key) (k : Key)
    (h : level1Row tm r = { row := r1, attempted := a, queued := some k }) :
    crow tm im resp confirm r = if confirm then tier2Row im resp k r1 else r1 := by
  simp only [crow]
  rw [h]

/-- Reading `crow` off an unqueued Level 1 outcome. -/
theorem crow_unqueued (tm im : Key → Option String) (resp : String → GcvOutcome)
    (confirm : Bool) (r r1 : Row) (a : Option Key)
    (h : level1Row tm r = { row := r1, attempted := a, queued := none }) :
    crow tm im resp confirm r = r1 := by
  simp only [crow]
  rw [h]
  try (cases confirm <;> rfl)

theorem crow_saturated (tm im : Key → Option String) (resp : String → GcvOutcome)
    (confirm : Bool) (r : Row) :
    Saturated tm im resp confirm (crow tm im resp confirm r) := by
  intro hb' k hk'
  rw [rowKey_crow tm im resp confirm r] at hk'
  cases hb : isBad r with
  | false =>
    rw [crow_not_bad tm im resp confirm r hb, hb] at hb'
    exact absurd hb' (by simp)
  | true =>
    cases hk : rowKey r with
    | none => rw [hk] at hk'; exact absurd hk' (by simp)
    | some k0 =>
      rw [hk] at hk'
      cases hk'
      -- now the queued key is exactly r's key k
      cases htm : tm k with
      | none =>
        have hcrow := crow_queued tm im resp confirm r r (some k) k
          (level1Row_tm_none tm r k hb hk htm)
        constructor
        · intro raw hraw
          exact absurd hraw (by simp)
        · intro hcf path him ht
          subst hcf
          rw [hcrow]
          simp only [if_true]
          rw [tier2Row_text im resp k r path him ht]
          exact noFill_of_fillCols mergeCols _ r (robust_parse_extOK _)
      | some raw =>
        by_cases hraw : raw = ""
        · subst hraw
          have hcrow := crow_queued tm im resp confirm r r (some k) k
            (level1Row_tm_empty tm r k hb hk htm)
          constructor
          · intro raw' hraw' hne
            cases hraw'
            exact absurd rfl hne
          · intro hcf path him ht
            subst hcf
            rw [hcrow]
            simp only [if_true]
            rw [tier2Row_text im resp k r path him ht]
            exact noFill_of_fillCols mergeCols _ r (robust_parse_extOK _)
        · by_cases hdone : ((fillCols mergeCols (robust_parse raw).get r).2 &&
              !isBad (fillCols mergeCols (robust_parse raw).get r).1) = true
          · -- fully fixed by Tier 1: the result is not bad, contradicting hb'
            exfalso
            have hcrow := crow_unqueued tm im resp confirm r
              (fillCols mergeCols (robust_parse raw).get r).1 (some k)
              (by rw [level1Row_tm_text tm r k raw hb hk htm hraw, if_pos hdone])
            rw [hcrow] at hb'
            simp only [Bool.and_eq_true, Bool.not_eq_true'] at hdone
            rw [hdone.2] at hb'
            exact absurd hb' (by simp)
          · have hcrow := crow_queued tm im resp confirm r
              (fillCols mergeCols (robust_parse raw).get r).1 (some k) k
              (by rw [level1Row_tm_text tm r k raw hb hk htm hraw, if_neg hdone])
            have hnf1 : NoFill mergeCols (robust_parse raw).get
                (fillCols mergeCols (robust_parse raw).get r).1 :=
              noFill_of_fillCols mergeCols _ r (robust_parse_extOK _)
            constructor
            · intro raw' hraw' hne
              cases hraw'
              rw [hcrow]
              cases hcf : confirm
              · simpa using hnf1
              · simp only [if_true]
                cases him : im k with
                | none => rw [tier2Row_none im resp k _ him]; exact hnf1
                | some path =>
                  by_cases ht : call_gcv_api resp path = ""
                  · rw [tier2Row_empty im resp k _ path him ht]; exact hnf1
                  · rw [tier2Row_text im resp k _ path him ht]
                    exact noFill_mono mergeCols mergeCols _ _ _ hnf1
            · intro hcf path him ht
              subst hcf
              rw [hcrow]
              simp only [if_true]
              rw [tier2Row_text im resp k _ path him ht]
              exact noFill_of_fillCols mergeCols _ _ (robust_parse_extOK _)

/-! ## `clean_text` scrubs pipes, capital I and newlines -/

theorem goodChar_digitMap (c : Char) (h : goodChar c) : goodChar (digitMap c) := by
  unfold digitMap
  split_ifs <;> first | decide | exact h

theorem mem_replChar (a b x : Char) (cs : List Char) (h : x ∈ replChar a b cs) :
    ∃ y ∈ cs, x = if y = a then b else y := by
  unfold replChar at h
  rcases List.mem_map.mp h with ⟨y, hy, he⟩
  exact ⟨y, hy, he.symm⟩

theorem replChar_no_target (a b : Char) (hab : b ≠ a) (cs : List Char) :
    ∀ x ∈ replChar a b cs, x ≠ a := by
  intro x hx
  rcases mem_replChar a b x cs hx with ⟨y, _, he⟩
  subst he
  split_ifs with h
  · exact hab
  · exact h

theorem replChar_keeps (a b : Char) (p : Char → Prop) (hb : p b) (cs : List Char)
    (hcs : ∀ y ∈ cs, p y) : ∀ x ∈ replChar a b cs, p x := by
  intro x hx
  rcases mem_replChar a b x cs hx with ⟨y, hy, he⟩
  subst he
  split_ifs
  · exact hb
  · exact hcs y hy

theorem replChar3_good (cs : List Char) :
    ∀ x ∈ replChar 'I' ' ' (replChar '|' ' ' (replChar '\n' ' ' cs)), goodChar x := by
  intro x hx
  refine ⟨?_, ?_, ?_⟩
  · -- no pipe: introduced nowhere after the pipe pass
    refine replChar_keeps 'I' ' ' (fun c => c ≠ '|') (by decide) _ ?_ x hx
    exact replChar_no_target '|' ' ' (by decide) _
  · exact replChar_no_target 'I' ' ' (by decide) _ x hx
  · refine replChar_keeps 'I' ' ' (fun c => c ≠ '\n') (by decide) _ ?_ x hx
    refine replChar_keeps '|' ' ' (fun c => c ≠ '\n') (by decide) _ ?_
    exact replChar_no_target '\n' ' ' (by decide) _

theorem mem_replaceSubF (pat rep : List Char) :
    ∀ (fuel : Nat) (cs : List Char) (x : Char),
      x ∈ replaceSubF pat rep fuel cs → x ∈ rep ∨ x ∈ cs := by
  intro fuel
  induction fuel with
  | zero =>
    intro cs x h
    cases cs with
    | nil => exact Or.inr h
    | cons c rest => exact Or.inr h
  | succ f ih =>
    intro cs x h
    cases cs with
    | nil => exact Or.inr h
    | cons c rest =>
      unfold replaceSubF at h
      by_cases hcond : (!pat.isEmpty && leadsWith pat (c :: rest)) = true
      · rw [if_pos hcond] at h
        rcases List.mem_append.mp h with h1 | h2
        · exact Or.inl h1
        · rcases ih _ x h2 with h3 | h4
          · exact Or.inl h3
          · exact Or.inr (List.mem_of_mem_drop h4)
      · rw [if_neg hcond] at h
        rcases List.mem_cons.mp h with he | h2
        · exact Or.inr (he ▸ List.mem_cons_self c rest)
        · rcases ih rest x h2 with h3 | h4
          · exact Or.inl h3
          · exact Or.inr (List.mem_cons_of_mem c h4)

theorem mem_replaceSub (pat rep cs : List Char) (x : Char)
    (h : x ∈ replaceSub pat rep cs) : x ∈ rep ∨ x ∈ cs :=
  mem_replaceSubF pat rep cs.length cs x h

/-- Every character of `clean_text`'s output is free of `|`, `I` and
newline: the three character replaces remove them, and the label fixes
only insert characters of `নাম:`/`পিতা:`/`মাতা:`. -/
theorem cleanTextL_good (raw : List Char) : ∀ x ∈ cleanTextL raw, goodChar x := by
  intro x hx
  unfold cleanTextL at hx
  have hx1 := stripL_subset _ hx
  rcases mem_replaceSub _ _ _ x hx1 with h | h
  · exact (by decide : ∀ y ∈ "মাতা:".data, goodChar y) x h
  rcases mem_replaceSub _ _ _ x h with h2 | h2
  · exact (by decide : ∀ y ∈ "পিতা:".data, goodChar y) x h2
  rcases mem_replaceSub _ _ _ x h2 with h3 | h3
  · exact (by decide : ∀ y ∈ "নাম:".data, goodChar y) x h3
  · exact replChar3_good raw x h3

/-! ## Captured groups of the lenient parser live inside the cleaned text -/

theorem searchLabelLazy_subset (labels : List (List Char)) (stop : List Char → Bool)
    (ae : Bool) (cs g : List Char) (h : searchLabelLazy labels stop ae cs = some g) :
    ∀ x ∈ g, x ∈ cs := by
  unfold searchLabelLazy at h
  refine scanLeftmost_subset _ ?_ cs g h
  intro t g' hg'
  exact (tryLabels_mono (P := fun _ => True) (fun t2 => lazyCaptureSkip stop ae t2)
    (fun t2 g2 h2 => ⟨fun x2 hx2 => lazyCaptureSkip_subset stop ae t2 g2 h2 hx2, trivial⟩)
    labels t g' hg').1

theorem mem_toBengaliL (g : List Char) (x : Char) (h : x ∈ toBengaliL g) :
    ∃ y ∈ g, x = digitMap y := by
  rcases List.mem_map.mp h with ⟨y, hy, he⟩
  exact ⟨y, hy, he.symm⟩

theorem good_mk_stripL (g : List Char) (hg : ∀ x ∈ g, goodChar x) :
    ∀ ch ∈ (String.mk (stripL g)).data, goodChar ch :=
  fun ch hch => hg ch (stripL_subset g hch)

theorem good_mk_toBengaliL (g : List Char) (hg : ∀ x ∈ g, goodChar x) :
    ∀ ch ∈ (String.mk (toBengaliL g)).data, goodChar ch := by
  intro ch hch
  rcases mem_toBengaliL g ch hch with ⟨y, hy, he⟩
  exact he ▸ goodChar_digitMap y (hg y hy)

/-! ## Final-sweep branch characterisations -/

theorem sweepRow_not_bad (im : Key → Option String) (resp : String → GcvOutcome)
    (r : Row) (hb : isBad r = false) : sweepRow im resp r = r := by
  simp [sweepRow, hb]

theorem sweepRow_no_key (im : Key → Option String) (resp : String → GcvOutcome)
    (r : Row) (hb : isBad r = true) (hk : rowKey r = none) : sweepRow im resp r = r := by
  simp [sweepRow, hb, hk]

theorem sweepRow_no_image (im : Key → Option String) (resp : String → GcvOutcome)
    (r : Row) (k : Key) (hb : isBad r = true) (hk : rowKey r = some k)
    (him : im k = none) : sweepRow im resp r = r := by
  simp [sweepRow, hb, hk, him]

theorem sweepRow_image (im : Key → Option String) (resp : String → GcvOutcome)
    (r : Row) (k : Key) (path : String) (hb : isBad r = true) (hk : rowKey r = some k)
    (him : im k = some path) :
    sweepRow im resp r =
      if (fillCols sweepCols (blind_parse (call_gcv_api resp path)).get r).2 then
        (fillCols sweepCols (blind_parse (call_gcv_api resp path)).get r).1
      else
        { (fillCols sweepCols (blind_parse (call_gcv_api resp path)).get r).1 with
          address := "RAW GCV: " ++ call_gcv_api resp path } := by
  simp [sweepRow, hb, hk, him]

/-! ## Queued rows were attempted first (Level 1 before Level 2) -/

theorem level1Row_queued_attempted (tm : Key → Option String) (r : Row) (k : Key)
    (h : (level1Row tm r).queued = some k) : (level1Row tm r).attempted = some k := by
  cases hb : isBad r with
  | false => rw [level1Row_not_bad tm r hb] at h ⊢; exact absurd h (by simp)
  | true =>
    cases hk : rowKey r with
    | none => rw [level1Row_no_key tm r hb hk] at h ⊢; exact absurd h (by simp)
    | some k0 =>
      cases htm : tm k0 with
      | none =>
        rw [level1Row_tm_none tm r k0 hb hk htm] at h ⊢
        exact h
      | some raw =>
        by_cases hraw : raw = ""
        · subst hraw
          rw [level1Row_tm_empty tm r k0 hb hk htm] at h ⊢
          exact h
        · rw [level1Row_tm_text tm r k0 raw hb hk htm hraw] at h ⊢
          by_cases hdone : ((fillCols mergeCols (robust_parse raw).get r).2 &&
              !isBad (fillCols mergeCols (robust_parse raw).get r).1) = true
          · rw [if_pos hdone] at h ⊢
            exact absurd h (by simp)
          · rw [if_neg hdone] at h ⊢
            exact h

/-- What an element of a queue entry's Level 2 event list can be. -/
theorem mem_tier2Events (im : Key → Option String) (o : L1Out) (e : Ev)
    (h : e ∈ tier2Events im o) :
    ∃ k, o.queued = some k ∧ (e = Ev.t2proc k ∨ e = Ev.gcvCall k) := by
  unfold tier2Events at h
  cases hq : o.queued with
  | none => simp only [hq] at h; exact absurd h (by simp)
  | some k =>
    simp only [hq] at h
    cases him : im k with
    | none =>
      simp only [him, List.mem_singleton] at h
      exact ⟨k, rfl, Or.inl h⟩
    | some path =>
      simp only [him, List.mem_cons, List.not_mem_nil, or_false] at h
      rcases h with h | h
      · exact ⟨k, rfl, Or.inl h⟩
      · exact ⟨k, rfl, Or.inr h⟩

/-! ## First digit run of a decomposed name -/

theorem takeWhile_append_run (p : Char → Bool) :
    ∀ (run suf : List Char), (∀ c ∈ run, p c = true) →
      (∀ c ∈ suf.take 1, p c = false) →
      (run ++ suf).takeWhile p = run := by
  intro run
  induction run with
  | nil =>
    intro suf _ hsuf
    cases suf with
    | nil => rfl
    | cons s t =>
      simp only [List.nil_append]
      rw [List.takeWhile_cons_of_neg]
      rw [hsuf s (by simp)]
      simp
  | cons a rt ih =>
    intro suf hrun hsuf
    simp only [List.cons_append]
    rw [List.takeWhile_cons_of_pos (hrun a (List.mem_cons_self a rt))]
    rw [ih suf (fun c hc => hrun c (List.mem_cons_of_mem a hc)) hsuf]

theorem firstDigitRun_decomp :
    ∀ (pre run suf : List Char),
      (∀ c ∈ pre, isAsciiDigit c = false) → run ≠ [] →
      (∀ c ∈ run, isAsciiDigit c = true) →
      (∀ c ∈ suf.take 1, isAsciiDigit c = false) →
      firstDigitRun (pre ++ run ++ suf) = some run := by
  intro pre
  induction pre with
  | nil =>
    intro run suf _ hne hrun hsuf
    cases run with
    | nil => exact absurd rfl hne
    | cons d rt =>
      simp only [List.nil_append, List.cons_append]
      unfold firstDigitRun
      rw [hrun d (List.mem_cons_self d rt)]
      simp only [if_true]
      rw [show (d :: (rt ++ suf)).takeWhile isAsciiDigit = (d :: rt ++ suf).takeWhile isAsciiDigit from rfl]
      rw [show (d :: rt ++ suf) = (d :: rt) ++ suf from rfl]
      rw [takeWhile_append_run isAsciiDigit (d :: rt) suf hrun hsuf]
  | cons pc pre' ih =>
    intro run suf hpre hne hrun hsuf
    simp only [List.cons_append]
    unfold firstDigitRun
    rw [hpre pc (List.mem_cons_self pc pre')]
    simp only [Bool.false_eq_true, if_false]
    exact ih run suf (fun c hc => hpre c (List.mem_cons_of_mem pc hc)) hne hrun hsuf

/-! ## The extraction pass's status rule as a function of the fields -/

theorem ep_status_iff (p : EP)
    (hm : p.missing =
      (if p.serial = "" then ["Serial"] else []) ++
      (if p.name = "" then ["Name"] else []) ++
      (if p.voterNo = "" then ["Voter No"] else []) ++
      (if p.mother = "" then ["Mother"] else []) ++
      (if p.dob = "" then ["DOB"] else []) ++
      (if p.address = "" then ["Address"] else []))
    (hs : p.status = if 2 < p.missing.length then "Review Needed" else "OK") :
    (p.status = "OK" ↔
      (([p.serial, p.name, p.voterNo, p.mother, p.dob, p.address].filter
        (fun v => v = "")).length ≤ 2)) := by
  have hlen : p.missing.length =
      ([p.serial, p.name, p.voterNo, p.mother, p.dob, p.address].filter
        (fun v => v = "")).length := by
    rw [hm]
    by_cases h1 : p.serial = "" <;> by_cases h2 : p.name = "" <;>
      by_cases h3 : p.voterNo = "" <;> by_cases h4 : p.mother = "" <;>
      by_cases h5 : p.dob = "" <;> by_cases h6 : p.address = "" <;>
      simp [h1, h2, h3, h4, h5, h6]
  rw [hs, hlen]
  by_cases hlt : 2 < ([p.serial, p.name, p.voterNo, p.mother, p.dob, p.address].filter
      (fun v => v = "")).length
  · rw [if_pos hlt]
    constructor
    · intro hcontr; exact absurd hcontr (by decide)
    · omega
  · rw [if_neg hlt]
    constructor
    · intro _; omega
    · intro _; rfl

/-! # Claim theorems -/

/-- Claim C1 — counterexample.  The final sweep does not obey the
fill-blanks-only rule: for a row with a non-empty Address but a missing
Name, an image in the index and an empty GCV response, the sweep's
failure branch overwrites the non-empty Address with the raw-text debug
dump (`final_repair.py` line 169). -/
theorem c1_fill_blanks_counterexample :
    blankS rowAddr.address = false ∧
    (sweepRow imageOne respEmptyText rowAddr).address = "RAW GCV: " ∧
    (sweepRow imageOne respEmptyText rowAddr).address ≠ rowAddr.address := by
  refine ⟨?_, ?_, ?_⟩ <;> decide

/-- Claim C1 (amended): repair only writes into currently-empty fields in
every merge step — the Tier 1 re-parse, the Tier 2 re-OCR merge, and the
final sweep's merge loop for every field other than Address; the one
exception the code makes is the final sweep's failure branch, which dumps
the raw GCV text into the Address cell. -/
theorem c1_fill_blanks_amended (tm im : Key → Option String)
    (resp : String → GcvOutcome) (r : Row) (c : Col)
    (h : blankS (r.get c) = false) :
    (level1Row tm r).row.get c = r.get c ∧
    (∀ k, (tier2Row im resp k r).get c = r.get c) ∧
    (c ≠ Col.address → (sweepRow im resp r).get c = r.get c) := by
  refine ⟨?_, ?_, ?_⟩
  · cases hb : isBad r with
    | false => rw [level1Row_not_bad tm r hb]
    | true =>
      cases hk : rowKey r with
      | none => rw [level1Row_no_key tm r hb hk]
      | some k =>
        cases htm : tm k with
        | none => rw [level1Row_tm_none tm r k hb hk htm]
        | some raw =>
          by_cases hraw : raw = ""
          · subst hraw
            rw [level1Row_tm_empty tm r k hb hk htm]
          · rw [level1Row_tm_text tm r k raw hb hk htm hraw]
            by_cases hdone : ((fillCols mergeCols (robust_parse raw).get r).2 &&
                !isBad (fillCols mergeCols (robust_parse raw).get r).1) = true
            · rw [if_pos hdone]
              exact fillColsGo_get_of_not_blank _ _ _ _ h
            · rw [if_neg hdone]
              exact fillColsGo_get_of_not_blank _ _ _ _ h
  · intro k
    cases him : im k with
    | none => rw [tier2Row_none im resp k r him]
    | some path =>
      by_cases ht : call_gcv_api resp path = ""
      · rw [tier2Row_empty im resp k r path him ht]
      · rw [tier2Row_text im resp k r path him ht]
        exact fillColsGo_get_of_not_blank _ _ _ _ h
  · intro hca
    cases hb : isBad r with
    | false => rw [sweepRow_not_bad im resp r hb]
    | true =>
      cases hk : rowKey r with
      | none => rw [sweepRow_no_key im resp r hb hk]
      | some k =>
        cases him : im k with
        | none => rw [sweepRow_no_image im resp r k hb hk him]
        | some path =>
          rw [sweepRow_image im resp r k path hb hk him]
          have h1 : (fillCols sweepCols (blind_parse (call_gcv_api resp path)).get r).1.get c
              = r.get c := fillColsGo_get_of_not_blank _ _ _ _ h
          by_cases hf : (fillCols sweepCols (blind_parse (call_gcv_api resp path)).get r).2 = true
          · rw [if_pos hf]
            exact h1
          · rw [if_neg hf]
            exact (Row.get_set_ne _ c Col.address _ (Ne.symm hca)).trans h1

/-- Claim C1 — witness for the amended theorem at a concrete row whose
Name is already filled. -/
theorem c1_fill_blanks_witness :
    blankS (rowNamed.get Col.name) = false ∧
    (level1Row tmEmpty rowNamed).row.get Col.name = rowNamed.get Col.name ∧
    (tier2Row imageOne respHamid (3, 7) rowNamed).get Col.name = rowNamed.get Col.name ∧
    (sweepRow imageOne respHamid rowNamed).get Col.name = rowNamed.get Col.name :=
  ⟨by decide,
   (c1_fill_blanks_amended tmEmpty imageOne respHamid rowNamed Col.name (by decide)).1,
   (c1_fill_blanks_amended tmEmpty imageOne respHamid rowNamed Col.name (by decide)).2.1 (3, 7),
   (c1_fill_blanks_amended tmEmpty imageOne respHamid rowNamed Col.name (by decide)).2.2
     (by decide)⟩

/-- Claim C2 — counterexample.  The extraction pass sets `Status` from the
count of missing tracked fields, not from the mandatory fields: on
`c2Text` both Name and Voter No are empty yet the status is `OK`, because
only those two of the six tracked fields are missing. -/
theorem c2_status_counterexample :
    (parse_with_regex c2Text).status = "OK" ∧
    (parse_with_regex c2Text).name = "" ∧
    (parse_with_regex c2Text).voterNo = "" := by
  refine ⟨?_, ?_, ?_⟩ <;> decide

/-- Claim C2 (amended): a record's status is `OK` if and only if at most
two of the six tracked fields (Serial, Name, Voter No, Mother, DOB,
Address) are empty; otherwise it is `Review Needed`.  The status is not
determined by the two mandatory fields. -/
theorem c2_status_amended (raw : String) :
    (parse_with_regex raw).status = "OK" ↔
      (([(parse_with_regex raw).serial, (parse_with_regex raw).name,
         (parse_with_regex raw).voterNo, (parse_with_regex raw).mother,
         (parse_with_regex raw).dob, (parse_with_regex raw).address].filter
        (fun v => v = "")).length ≤ 2) :=
  ep_status_iff (parse_with_regex raw) rfl rfl

/-- Claim C3 — counterexample.  The full repair pipeline (cascade followed
by the final sweep) is not idempotent: with fixed sources, a record whose
Name stays missing gets its Father filled by the sweep's blind parse in
the first run, and in the second run the sweep's failure branch then
overwrites the blank Address with the raw-text dump. -/
theorem c3_idempotence_counterexample :
    fullRepair tmEmpty imageOne respHamid
        (fullRepair tmEmpty imageOne respHamid [rowFixture]) ≠
      fullRepair tmEmpty imageOne respHamid [rowFixture] := by
  decide

/-- Claim C3 (amended): the Tier 1 / Tier 2 cascade of `repair.py` alone
is idempotent — running it twice over the same cached-text index, image
index and extractor responses gives the same record set as running it
once; fields already filled are never revisited.  (The final sweep of
`final_repair.py` breaks this, see the counterexample.) -/
theorem c3_cascade_idempotent (tm im : Key → Option String)
    (resp : String → GcvOutcome) (confirm : Bool) (rows : List Row) :
    cascade tm im resp confirm (cascade tm im resp confirm rows) =
      cascade tm im resp confirm rows := by
  simp only [cascade_eq_map, List.map_map]
  refine List.map_congr_left fun r _ => ?_
  exact crow_fixed tm im resp confirm (crow tm im resp confirm r)
    (crow_saturated tm im resp confirm r)

/-- Claim C4 (confirmed): the cascade's trace splits into a Tier 1 block
followed by a Tier 2 block — every Tier 1 attempt happens before any
Level 2 processing or paid GCV call system-wide — and every key that is
processed in Level 2 (or receives a GCV call) went through a Tier 1
attempt first. -/
theorem c4_tier_ordering (tm im : Key → Option String) (rows : List Row) :
    ∃ t1 t2 : List Ev,
      cascadeTrace tm im rows = t1 ++ t2 ∧
      (∀ e ∈ t1, ∃ k, e = Ev.t1att k) ∧
      (∀ e ∈ t2, ∀ k, e ≠ Ev.t1att k) ∧
      (∀ k, Ev.t2proc k ∈ t2 → Ev.t1att k ∈ t1) ∧
      (∀ k, Ev.gcvCall k ∈ t2 → Ev.t1att k ∈ t1) := by
  refine ⟨_, _, rfl, ?_, ?_, ?_, ?_⟩
  · intro e he
    rcases List.mem_filterMap.mp he with ⟨o, _, ho⟩
    rcases Option.map_eq_some'.mp ho with ⟨k, _, hk⟩
    exact ⟨k, hk.symm⟩
  · intro e he k
    rcases List.mem_flatMap.mp he with ⟨o, _, heo⟩
    rcases mem_tier2Events im o e heo with ⟨k', _, h'⟩
    rcases h' with rfl | rfl <;> simp
  · intro k hk2
    rcases List.mem_flatMap.mp hk2 with ⟨o, ho, heo⟩
    rcases mem_tier2Events im o _ heo with ⟨k', hq, h'⟩
    have hqk : o.queued = some k := by
      rcases h' with h'' | h''
      · cases h''; exact hq
      · exact absurd h'' (by simp)
    rcases List.mem_map.mp ho with ⟨r, hr, rfl⟩
    have hatt := level1Row_queued_attempted tm r k hqk
    exact List.mem_filterMap.mpr ⟨level1Row tm r, List.mem_map.mpr ⟨r, hr, rfl⟩,
      by rw [hatt]; rfl⟩
  · intro k hk2
    rcases List.mem_flatMap.mp hk2 with ⟨o, ho, heo⟩
    rcases mem_tier2Events im o _ heo with ⟨k', hq, h'⟩
    have hqk : o.queued = some k := by
      rcases h' with h'' | h''
      · exact absurd h'' (by simp)
      · cases h''; exact hq
    rcases List.mem_map.mp ho with ⟨r, hr, rfl⟩
    have hatt := level1Row_queued_attempted tm r k hqk
    exact List.mem_filterMap.mpr ⟨level1Row tm r, List.mem_map.mpr ⟨r, hr, rfl⟩,
      by rw [hatt]; rfl⟩

/-- Claim C5 — counterexample.  A queued record whose key has no image
index entry is simply skipped and left completely unchanged: the cascade
output equals the input, no `unrecoverable` status is assigned anywhere
(the records of this pipeline carry no status column at all). -/
theorem c5_unrecoverable_counterexample :
    isBad rowFixture = true ∧
    imNone (3, 7) = none ∧
    cascade tmEmpty imNone respHamid true [rowFixture] = [rowFixture] ∧
    cascadeTrace tmEmpty imNone [rowFixture] = [Ev.t1att (3, 7), Ev.t2proc (3, 7)] := by
  refine ⟨?_, rfl, ?_, ?_⟩ <;> decide

/-- Claim C5 (amended): for a queued record whose key is absent from the
image index, the Tier 2 GCV call is skipped (the Level 2 events for that
entry contain no `gcvCall`) and the record is left unchanged; no
`unrecoverable` marker exists in the code. -/
theorem c5_missing_source_amended (im : Key → Option String)
    (resp : String → GcvOutcome) (k : Key) (r : Row) (h : im k = none) :
    tier2Row im resp k r = r ∧
    ∀ o : L1Out, o.queued = some k → tier2Events im o = [Ev.t2proc k] := by
  refine ⟨tier2Row_none im resp k r h, ?_⟩
  intro o ho
  unfold tier2Events
  simp only [ho, h]

/-- Claim C5 — witness for the amended theorem. -/
theorem c5_missing_source_witness :
    tier2Row imNone respHamid (3, 7) rowFixture = rowFixture ∧
    tier2Events imNone
      { row := rowFixture, attempted := some (3, 7), queued := some (3, 7) } =
      [Ev.t2proc (3, 7)] :=
  ⟨(c5_missing_source_amended imNone respHamid (3, 7) rowFixture rfl).1,
   (c5_missing_source_amended imNone respHamid (3, 7) rowFixture rfl).2 _ rfl⟩

/-- Claim C6 (confirmed): a failed TextExtractor call (exception, timeout,
missing file, malformed response) is returned as empty text; an empty
text leaves the record unchanged and the cascade still processes every
record of the batch. -/
theorem c6_extraction_failed (resp : String → GcvOutcome) (path : String)
    (h : resp path = GcvOutcome.failure) :
    call_gcv_api resp path = "" ∧
    (∀ im : Key → Option String, ∀ (k : Key) (r : Row),
      im k = some path → tier2Row im resp k r = r) ∧
    (∀ (tm im : Key → Option String) (confirm : Bool) (rows : List Row),
      (cascade tm im resp confirm rows).length = rows.length) := by
  have h1 : call_gcv_api resp path = "" := by unfold call_gcv_api; rw [h]
  refine ⟨h1, ?_, ?_⟩
  · intro im k r him
    exact tier2Row_empty im resp k r path him h1
  · intro tm im confirm rows
    rw [cascade_eq_map]
    exact List.length_map rows _

/-- Claim C6 — witness at an all-failing extractor. -/
theorem c6_extraction_failed_witness :
    call_gcv_api respFail "crop.jpg" = "" ∧
    tier2Row imageOne respFail (3, 7) rowFixture = rowFixture ∧
    (cascade tmEmpty imageOne respFail true [rowFixture]).length = 1 :=
  ⟨(c6_extraction_failed respFail "crop.jpg" rfl).1,
   (c6_extraction_failed respFail "crop.jpg" rfl).2.1 imageOne (3, 7) rowFixture (by decide),
   (c6_extraction_failed respFail "crop.jpg" rfl).2.2 tmEmpty imageOne true [rowFixture]⟩

/-- Claim C7 (confirmed): key derivation round-trip.  For a locator path
whose second-to-last segment decomposes as a digit-free prefix, a first
maximal digit run, and a remainder not starting with a digit — and
likewise its last segment — `derive_key` returns exactly the pair of
those runs' integer values. -/
theorem c7_key_round_trip (path : String) (lastSeg sndSeg : List Char)
    (restSegs : List (List Char)) (pre1 run1 suf1 pre2 run2 suf2 : List Char)
    (hsplit : (splitOnChar '/' path.data).reverse = lastSeg :: sndSeg :: restSegs)
    (hdec1 : sndSeg = pre1 ++ run1 ++ suf1)
    (hpre1 : ∀ c ∈ pre1, isAsciiDigit c = false)
    (hrun1ne : run1 ≠ []) (hrun1 : ∀ c ∈ run1, isAsciiDigit c = true)
    (hsuf1 : ∀ c ∈ suf1.take 1, isAsciiDigit c = false)
    (hdec2 : lastSeg = pre2 ++ run2 ++ suf2)
    (hpre2 : ∀ c ∈ pre2, isAsciiDigit c = false)
    (hrun2ne : run2 ≠ []) (hrun2 : ∀ c ∈ run2, isAsciiDigit c = true)
    (hsuf2 : ∀ c ∈ suf2.take 1, isAsciiDigit c = false) :
    derive_key path = some (natOfDigits run1, natOfDigits run2) := by
  unfold derive_key
  simp only [hsplit]
  rw [hdec1, hdec2,
    firstDigitRun_decomp pre1 run1 suf1 hpre1 hrun1ne hrun1 hsuf1,
    firstDigitRun_decomp pre2 run2 suf2 hpre2 hrun2ne hrun2 hsuf2]
  rfl

/-- Claim C7 — witness: `dump/Page_003/box_12.jpg` derives to (3, 12). -/
theorem c7_key_round_trip_witness :
    derive_key "dump/Page_003/box_12.jpg" = some (3, 12) := by
  have h := c7_key_round_trip "dump/Page_003/box_12.jpg" "box_12.jpg".data "Page_003".data
    ["dump".data] "Page_".data "003".data [] "box_".data "12".data ".jpg".data
    (by decide) (by decide) (by decide) (by decide) (by decide) (by decide)
    (by decide) (by decide) (by decide) (by decide) (by decide)
  rw [h]
  decide

/-- Claim C8 — counterexample.  On the scenario text the Strict parser
leaves the parent field empty (its Father pattern demands a following
`মাতা` label, absent here), contradicting the claimed `parent = "রহিম"`
with no field missing. -/
theorem c8_strict_scenario_counterexample :
    (parse_bengali_row scenarioText).father = "" ∧
    (parse_bengali_row scenarioText).father ≠ "রহিম" := by
  refine ⟨?_, ?_⟩ <;> decide

/-- Claim C8 (amended): on the scenario text the Strict parser yields the
claimed serial, name and voter number (digit-normalised), but the parent
field is empty/missing because the strict Father pattern requires a
following `মাতা` label; the Lenient parser does extract `"রহিম"`. -/
theorem c8_strict_scenario_amended :
    parse_bengali_row scenarioText =
      { serial := "০০০১", name := "করিম", voterNo := "১২৩৪৫৬৭৮৯০১২৩",
        father := "", mother := "", occupation := "", dob := "", address := "" } ∧
    (robust_parse scenarioText).father = some "রহিম" := by
  refine ⟨?_, ?_⟩ <;> decide

/-- Claim C9 (confirmed): digit normalisation maps an ASCII digit string
to the corresponding Bengali digit string — same length, position by
position the Bengali digit of the same value (code point shifted by
2486) — and is idempotent. -/
theorem c9_digit_normalization (s : String)
    (h : ∀ c ∈ s.data, isAsciiDigit c = true) :
    (to_bengali_digits s).data = s.data.map digitMap ∧
    (∀ c ∈ s.data, (digitMap c).toNat = c.toNat + 2486 ∧
      isBengaliDigit (digitMap c) = true) ∧
    (to_bengali_digits s).data.length = s.data.length ∧
    to_bengali_digits (to_bengali_digits s) = to_bengali_digits s := by
  refine ⟨rfl, ?_, ?_, ?_⟩
  · intro c hc
    exact ⟨digitMap_toNat c (h c hc), isBengaliDigit_digitMap c (h c hc)⟩
  · exact toBengaliL_length s.data
  · show String.mk (toBengaliL (String.mk (toBengaliL s.data)).data) = _
    exact congrArg String.mk (toBengaliL_idem s.data)

/-- Claim C9 — witness on the full digit alphabet. -/
theorem c9_digit_normalization_witness :
    (to_bengali_digits "0123456789").data = "0123456789".data.map digitMap ∧
    (∀ c ∈ ("0123456789" : String).data, (digitMap c).toNat = c.toNat + 2486 ∧
      isBengaliDigit (digitMap c) = true) ∧
    (to_bengali_digits "0123456789").data.length = ("0123456789" : String).data.length ∧
    to_bengali_digits (to_bengali_digits "0123456789") = to_bengali_digits "0123456789" :=
  c9_digit_normalization "0123456789" (by decide)

/-- Claim C10 (confirmed): every field value the Lenient parser returns
(Name, Voter No, Father/Husband, Mother, Occupation, DOB, Address) is
free of `|`, `I` and newline — `clean_text` replaces all three with
spaces up front and the captures are substrings of the cleaned text
(digit normalisation maps no character to a banned one). -/
theorem c10_lenient_no_artifacts (raw : String) (c : Col) (v : String)
    (hc : c ∈ [Col.name, Col.voterNo, Col.father, Col.mother, Col.occupation,
      Col.dob, Col.address])
    (hv : (robust_parse raw).get c = some v) :
    ∀ ch ∈ v.data, ch ≠ '|' ∧ ch ≠ 'I' ∧ ch ≠ '\n' := by
  have hgood : ∀ x ∈ cleanTextL raw.data, goodChar x := cleanTextL_good raw.data
  simp only [List.mem_cons, List.not_mem_nil, or_false] at hc
  unfold robust_parse robustParseL at hv
  rcases hc with rfl | rfl | rfl | rfl | rfl | rfl | rfl
  · -- Name
    simp only [RP.get] at hv
    rcases Option.map_eq_some'.mp hv with ⟨g, hg, rfl⟩
    exact good_mk_stripL g
      (fun x hx => hgood x (searchLabelLazy_subset _ _ _ _ g hg x hx))
  · -- Voter No
    simp only [RP.get] at hv
    cases hscan : scanLeftmost (twoWordClassAt wVoter wNong isVoterChar)
        (cleanTextL raw.data) with
    | some g =>
      rw [hscan] at hv
      cases hv
      have hsub := (scanLeftmost_mono
        (P := fun g => g ≠ [] ∧ ∀ c ∈ g, isVoterChar c = true) _
        (fun t g h => twoWordClassAt_mono wVoter wNong isVoterChar t g h) _ _ hscan).1
      exact good_mk_toBengaliL g (fun x hx => hgood x (hsub x hx))
    | none =>
      rw [hscan] at hv
      rcases Option.map_eq_some'.mp hv with ⟨g, hg, rfl⟩
      have hsub := (runScan_mono 10 18 (by omega) (by omega) _ g hg).1
      exact good_mk_toBengaliL g (fun x hx => hgood x (hsub x hx))
  · -- Father/Husband
    simp only [RP.get] at hv
    rcases Option.map_eq_some'.mp hv with ⟨g, hg, rfl⟩
    exact good_mk_stripL g
      (fun x hx => hgood x (searchLabelLazy_subset _ _ _ _ g hg x hx))
  · -- Mother
    simp only [RP.get] at hv
    rcases Option.map_eq_some'.mp hv with ⟨g, hg, rfl⟩
    exact good_mk_stripL g
      (fun x hx => hgood x (searchLabelLazy_subset _ _ _ _ g hg x hx))
  · -- Occupation
    simp only [RP.get] at hv
    rcases Option.map_eq_some'.mp hv with ⟨g, hg, rfl⟩
    exact good_mk_stripL g
      (fun x hx => hgood x (searchLabelLazy_subset _ _ _ _ g hg x hx))
  · -- DOB
    simp only [RP.get] at hv
    rcases Option.map_eq_some'.mp hv with ⟨g, hg, rfl⟩
    have hsub := (scanLeftmost_mono
      (P := fun g => ∃ a t, g = a :: t ∧ isDigitEither a = true)
      dateAt (fun t g h => dateAt_mono t g h) _ _ hg).1
    exact good_mk_toBengaliL g (fun x hx => hgood x (hsub x hx))
  · -- Address
    simp only [RP.get] at hv
    rcases Option.map_eq_some'.mp hv with ⟨g, hg, rfl⟩
    have hsub := scanLeftmost_subset _
      (fun t g' hg' => (tryLabels_mono (P := fun _ => True) restCaptureLine
        (fun t2 g2 h2 => ⟨restCaptureLine_subset t2 g2 h2, trivial⟩) _ t g' hg').1)
      _ _ hg
    exact good_mk_toBengaliL (stripL g)
      (fun x hx => hgood x (hsub x (stripL_subset g hx)))

/-- Claim C10 — witness: a name containing a pipe and a capital I is
returned scrubbed. -/
theorem c10_lenient_no_artifacts_witness :
    (robust_parse "নাম: কIরিম|").get Col.name = some "ক রিম" ∧
    (∀ ch ∈ ("ক রিম" : String).data, ch ≠ '|' ∧ ch ≠ 'I' ∧ ch ≠ '\n') :=
  ⟨by decide,
   c10_lenient_no_artifacts "নাম: কIরিম|" Col.name "ক রিম" (by decide) (by decide)⟩

end Ocr
